import Mathlib

/-!
TerraCognita: filter engine and retry executor.

A shallow embedding of `filter/filter.go` and `util/retry.go`, followed by the
properties established about them.

Conventions of the embedding

* A Go `string` is the list of its characters.  The only character the code
  inspects is the separator `.`, a single byte that never occurs inside a
  multi-byte UTF-8 sequence, so searching for the character and searching for
  the byte agree.
* A Go `map[string]V` is an association list with at most one entry per key,
  read with `GoMap.get` and written with `GoMap.set`; a `nil` map is `none`.
* Methods with a pointer receiver that assign to a field return the updated
  receiver next to their result.
* A run-time panic (index out of range) is the value `none`.
-/

namespace TerraCognita

/-! ## Go strings and maps -/

/-- A Go string, as the list of its characters. -/
abbrev GoString := List Char

/-- A Go map with string keys: association list, one entry per key. -/
abbrev GoMap (V : Type) := List (GoString × V)

/-- The read `m[k]` together with its `ok` flag: `none` when the key is absent. -/
def GoMap.get {V : Type} : GoMap V → GoString → Option V
  | [], _ => none
  | (k', v) :: rest, k => if k' = k then some v else GoMap.get rest k

/-- The assignment `m[k] = v`: replaces the entry of `k`, or adds one. -/
def GoMap.set {V : Type} : GoMap V → GoString → V → GoMap V
  | [], k, v => [(k, v)]
  | (k', v') :: rest, k, v =>
    if k' = k then (k, v) :: rest else (k', v') :: GoMap.set rest k v

/-- The `ok` flag of `_, ok := m[k]` on a map that may be `nil`: reading a
`nil` map finds nothing. -/
def hasKey (m : Option (GoMap Unit)) (k : GoString) : Bool :=
  match m with
  | none => false
  | some s => (GoMap.get s k).isSome

/-! ## `strings` functions used by the filter -/

/-- The call `strings.Index(s, sep)` for a one-character separator: position of
its first occurrence, `-1` when there is none. -/
def Index : GoString → Char → Int
  | [], _ => -1
  | c :: cs, sep =>
    if c = sep then 0
    else
      let r := Index cs sep
      if r < 0 then -1 else r + 1

/-- The call `strings.Contains(s, sep)`, which is `Index(s, sep) >= 0`. -/
def Contains (s : GoString) (sep : Char) : Bool :=
  decide (0 ≤ Index s sep)

/-- The call `strings.Count(s, sep)` for a one-character separator. -/
def Count (s : GoString) (sep : Char) : Int :=
  (s.count sep : Nat)

/-- The loop of `genSplit`: at most `k` cuts, each at the first separator of
what is left; the remainder is the last piece. -/
def genSplitLoop : Nat → GoString → Char → List GoString
  | 0, s, _ => [s]
  | k + 1, s, sep =>
    let m := Index s sep
    if m < 0 then [s]
    else s.take m.toNat :: genSplitLoop k (s.drop (m.toNat + 1)) sep

/-- The call `strings.SplitN(s, sep, n)` for a one-character separator. -/
def SplitN (s : GoString) (sep : Char) (n : Int) : List GoString :=
  if n = 0 then []
  else
    let n := if n < 0 then Count s sep + 1 else n
    let n := if n > (s.length : Int) + 1 then (s.length : Int) + 1 else n
    genSplitLoop (n - 1).toNat s sep

/-! ## The filter -/

/-- Modelled from the spec: the type `tag.Tag` is declared outside the files at
hand; the spec describes `Tags` as a sequence of key/value pairs that the
filter engine never evaluates. -/
structure Tag where
  Name : GoString
  Value : GoString
  deriving DecidableEq, Repr

/-- The struct `Filter`: four configuration fields and the two lazily built
membership caches, the unexported fields `exclude` and `include` (`include`
is a reserved word here, hence the suffix; `none` is the `nil` map). -/
structure Filter where
  Tags : List Tag
  Include : List GoString
  Exclude : List GoString
  Targets : List GoString
  excludeMap : Option (GoMap Unit)
  includeMap : Option (GoMap Unit)
  deriving DecidableEq, Repr

/-- The loop shared by both `calculate…Map` methods: `aux[e] = struct{}{}` for
each element, starting from `aux`. -/
def fillSet (aux : GoMap Unit) : List GoString → GoMap Unit
  | [] => aux
  | e :: es => fillSet (GoMap.set aux e ()) es

/-- The method `calculateExcludeMap`: stores the set of `Exclude` in the cache. -/
def Filter.calculateExcludeMap (f : Filter) : Filter :=
  { f with excludeMap := some (fillSet [] f.Exclude) }

/-- The method `calculateIncludeMap`: stores the set of `Include` in the cache. -/
def Filter.calculateIncludeMap (f : Filter) : Filter :=
  { f with includeMap := some (fillSet [] f.Include) }

/-- The method `IsExcluded`: result and the receiver after the call. -/
def Filter.IsExcluded (f : Filter) (v : List GoString) : Bool × Filter :=
  if f.Exclude.length = 0 then (false, f)
  else
    let f := if f.excludeMap = none then f.calculateExcludeMap else f
    (v.all (fun res => hasKey f.excludeMap res), f)

/-- The method `IsIncluded`: result and the receiver after the call. -/
def Filter.IsIncluded (f : Filter) (v : List GoString) : Bool × Filter :=
  if f.Include.length = 0 then (true, f)
  else
    let f := if f.includeMap = none then f.calculateIncludeMap else f
    (v.all (fun res => hasKey f.includeMap res), f)

/-! ## Errors -/

/-- A message produced by `fmt.Sprintf`-style formatting, kept as the format
string and its operands (the rendering of verbs such as `%q` is not
unfolded). -/
structure Message where
  format : GoString
  args : List GoString
  deriving DecidableEq, Repr

/-- A non-nil Go `error` value, by dynamic type.  The four named constructors
are the types `Retry` looks for; `foreign` is a value of any other type, given
by the name `%T` prints for it. -/
inductive GoError where
  | errorString (s : GoString)
  | fundamental (msg : GoString)
  | withStack (cause : GoError)
  | withMessage (cause : GoError) (msg : Message)
  | foreign (typeName : GoString) (detail : GoString)
  deriving DecidableEq, Repr

/-- The rendering `fmt.Sprintf("%T", err)` of a non-nil error. -/
def typeName : GoError → GoString
  | .errorString _ => "*errors.errorString".toList
  | .fundamental _ => "*errors.fundamental".toList
  | .withStack _ => "*errors.withStack".toList
  | .withMessage _ _ => "*errors.withMessage".toList
  | .foreign n _ => n

/-- The call `errors.Wrapf(err, format, args...)` of `github.com/pkg/errors`:
`nil` for a `nil` error, otherwise the error annotated with the message and
then with a stack. -/
def Wrapf (err : Option GoError) (format : GoString) (args : List GoString) :
    Option GoError :=
  match err with
  | none => none
  | some e => some (.withStack (.withMessage e ⟨format, args⟩))

/-- The format string of the error `Validate` returns. -/
def validateFormat : GoString :=
  "the Target %q has an invalid format. The expected format is 'aws_instance.ID'".toList

/-- The `for` loop of `Validate`: the first target without a separator ends it
with an error. -/
def validateLoop (ErrFilterTargetsInvalid : GoError) : List GoString → Option GoError
  | [] => none
  | t :: ts =>
    if !Contains t '.' then Wrapf (some ErrFilterTargetsInvalid) validateFormat [t]
    else validateLoop ErrFilterTargetsInvalid ts

/-- The method `Validate`; `none` is the `nil` error.  The sentinel
`errcode.ErrFilterTargetsInvalid`, a package-level error value declared outside
the files at hand, is a parameter. -/
def Filter.Validate (ErrFilterTargetsInvalid : GoError) (f : Filter) : Option GoError :=
  if f.Targets.length ≠ 0 then validateLoop ErrFilterTargetsInvalid f.Targets
  else none

/-! ## Target groups -/

/-- The two local maps of `TargetsTypesWithIDs`: `types` and `res`. -/
abbrev TargetMaps := GoMap (GoMap Unit) × GoMap (List GoString)

/-- One iteration of the loop of `TargetsTypesWithIDs` on target `t`; `none`
when `split[0]` or `split[1]` is out of range. -/
def targetsStep (st : TargetMaps) (t : GoString) : Option TargetMaps :=
  let split := SplitN t '.' 2
  match split[0]?, split[1]? with
  | some ty, some id =>
    let st1 : TargetMaps :=
      if (GoMap.get st.1 ty).isNone then (GoMap.set st.1 ty [], GoMap.set st.2 ty [])
      else st
    let inner := (GoMap.get st1.1 ty).getD []
    if (GoMap.get inner id).isNone then
      some (GoMap.set st1.1 ty (GoMap.set inner id ()),
            GoMap.set st1.2 ty ((GoMap.get st1.2 ty).getD [] ++ [id]))
    else some st1
  | _, _ => none

/-- The loop of `TargetsTypesWithIDs` over the targets still to visit. -/
def targetsLoop : List GoString → TargetMaps → Option TargetMaps
  | [], st => some st
  | t :: ts, st =>
    match targetsStep st t with
    | none => none
    | some st1 => targetsLoop ts st1

/-- The method `TargetsTypesWithIDs`: the map `res`, or `none` on a panic. -/
def Filter.TargetsTypesWithIDs (f : Filter) : Option (GoMap (List GoString)) :=
  (targetsLoop f.Targets ([], [])).map (fun st => st.2)

/-! ## The retry executor -/

/-- A Go `int` (64 bits): an integer within the two's-complement range. -/
structure GoInt where
  val : Int
  lo : -(2 ^ 63) ≤ val
  hi : val < 2 ^ 63

/-- Reduction of an integer into the 64-bit two's-complement range. -/
def wrapInt (x : Int) : Int := (x + 2 ^ 63) % 2 ^ 64 - 2 ^ 63

/-- The statement `times--` on a Go `int`, wrapping on overflow. -/
def GoInt.dec (t : GoInt) : GoInt :=
  ⟨wrapInt (t.val - 1), by unfold wrapInt; omega, by unfold wrapInt; omega⟩

/-- A `time.Duration`, in nanoseconds. -/
abbrev Duration := Int

/-- The three predicates of `github.com/aws/aws-sdk-go/aws/request` that
`Retry` consults; they belong to the remote library and are parameters. -/
structure Classifier where
  IsErrorRetryable : GoError → Bool
  IsErrorThrottle : GoError → Bool
  IsErrorExpiredCreds : GoError → Bool

/-- The type `RetryFn`, a closure `func() error`: from the state it closes over
to the returned error (`none` is `nil`) and the state afterwards. -/
abbrev RetryFn (σ : Type) := σ → Option GoError × σ

/-- What a call of `Retry` can observe and change: the state behind the
operation, the number of invocations of the operation, the durations passed to
`time.Sleep` (oldest first) and the log lines written, each with its `err` and
`times-left` values. -/
structure World (σ : Type) where
  op : σ
  calls : Nat
  sleeps : List Duration
  logs : List (GoError × Int)

/-- The test on `errtype` in `Retry`: the error is one of the standard
library or of `github.com/pkg/errors`. -/
def isLocal (e : GoError) : Bool :=
  typeName e == "*errors.errorString".toList || typeName e == "*errors.fundamental".toList
    || typeName e == "*errors.withStack".toList || typeName e == "*errors.withMessage".toList

/-- The condition under which `Retry` waits and calls itself again. -/
def isTransient (cls : Classifier) (e : GoError) : Bool :=
  cls.IsErrorRetryable e || cls.IsErrorThrottle e || cls.IsErrorExpiredCreds e

/-- The function `Retry`: returned error and the world after the call. -/
def Retry {σ : Type} (cls : Classifier) (rfn : RetryFn σ) (times : GoInt)
    (interval : Duration) (w : World σ) : Option GoError × World σ :=
  let r := rfn w.op
  let w1 : World σ := { w with op := r.2, calls := w.calls + 1 }
  let times1 := times.dec
  match r.1 with
  | none => (none, w1)
  | some err =>
    if h : times1.val = 0 then (some err, w1)
    else if isLocal err then (some err, w1)
    else if isTransient cls err then
      Retry cls rfn times1 interval
        { w1 with logs := w1.logs ++ [(err, times1.val)], sleeps := w1.sleeps ++ [interval] }
    else (some err, w1)
termination_by ((times.val - 1) % 2 ^ 64).toNat
decreasing_by
  have h1 := times.lo
  have h2 := times.hi
  have h3 : ¬ times.dec.val = 0 := h
  simp only [GoInt.dec, wrapInt] at h3 ⊢
  omega

/-- The constant `timesDefault`. -/
def timesDefault : GoInt := ⟨3, by decide, by decide⟩

/-- The constant `intervalDefault`, thirty seconds in nanoseconds. -/
def intervalDefault : Duration := 30 * 1000000000

/-- The function `RetryDefault`. -/
def RetryDefault {σ : Type} (cls : Classifier) (rfn : RetryFn σ) (w : World σ) :
    Option GoError × World σ :=
  Retry cls rfn timesDefault intervalDefault w

/-- The function `Retry` again, run on a call stack with room for `room`
further nested calls of itself.  The body is the one of `Retry`.  Go keeps the
frame of the caller when `Retry` calls itself in `return Retry(...)`, so every
retry nests one call deeper; a retry attempted with no room left is a stack
overflow, which ends the program instead of returning: `none`. -/
def RetryOnStack {σ : Type} (cls : Classifier) (rfn : RetryFn σ) :
    Nat → GoInt → Duration → World σ → Option (Option GoError × World σ)
  | room, times, interval, w =>
    let r := rfn w.op
    let w1 : World σ := { w with op := r.2, calls := w.calls + 1 }
    let times1 := times.dec
    match r.1 with
    | none => some (none, w1)
    | some err =>
      if times1.val = 0 then some (some err, w1)
      else if isLocal err then some (some err, w1)
      else if isTransient cls err then
        match room with
        | 0 => none
        | room1 + 1 =>
          RetryOnStack cls rfn room1 times1 interval
            { w1 with logs := w1.logs ++ [(err, times1.val)],
                      sleeps := w1.sleeps ++ [interval] }
      else some (some err, w1)

/-! ## Concrete inputs used by the examples -/

/-- The filter with `Exclude = [a, b]` and nothing else set. -/
def filterExcludeAB : Filter :=
  ⟨[], [], ["a".toList, "b".toList], [], none, none⟩

/-- The filter with `Include = [x]` and nothing else set. -/
def filterIncludeX : Filter :=
  ⟨[], ["x".toList], [], [], none, none⟩

/-- The filter with the four targets of the grouping example. -/
def filterFourTargets : Filter :=
  ⟨[], [], [], ["aws_instance.1".toList, "aws_instance.2".toList,
    "aws_instance.1".toList, "aws_vpc.9".toList], none, none⟩

/-- The filter with the single target `a.b.c`. -/
def filterDottedID : Filter :=
  ⟨[], [], [], ["a.b.c".toList], none, none⟩

/-- The filter with the given targets and nothing else set. -/
def filterWithTargets (targets : List GoString) : Filter :=
  ⟨[], [], [], targets, none, none⟩

/-- An error of the remote library's own type. -/
def remoteError (detail : GoString) : GoError :=
  .foreign "*awserr.requestError".toList detail

/-- A classifier that reports every error as retryable, as the remote
library does for errors it does not know. -/
def retryAll : Classifier :=
  ⟨fun _ => true, fun _ => false, fun _ => false⟩

/-- An operation over a call counter: it fails with a remote error on its first
`k` invocations and succeeds afterwards. -/
def failsThenSucceeds (k : Nat) : RetryFn Nat :=
  fun n => (if n < k then some (remoteError (List.replicate n 'x')) else none, n + 1)

/-- An operation over a call counter that fails on every invocation, each time
with a different remote error. -/
def alwaysFails : RetryFn Nat :=
  fun n => (some (remoteError (List.replicate n 'x')), n + 1)

/-- An operation that fails on every invocation with an error made by
`errors.New` of `github.com/pkg/errors`. -/
def alwaysLocal : RetryFn Nat :=
  fun n => (some (.fundamental "not found".toList), n + 1)

/-- The world before `Retry` is called: no invocation, no wait, no log line. -/
def World.start {σ : Type} (s : σ) : World σ :=
  ⟨s, 0, [], []⟩

/-- A small `int`. -/
def GoInt.ofSmall (n : Nat) (h : n < 1000) : GoInt :=
  ⟨(n : Int), by omega, by omega⟩

/-- A classifier that reports no error as retryable, throttled or expired. -/
def retryNone : Classifier :=
  ⟨fun _ => false, fun _ => false, fun _ => false⟩

/-- A sentinel error value, standing for `errcode.ErrFilterTargetsInvalid` in
the examples. -/
def sentinelError : GoError :=
  .fundamental "invalid filter targets".toList

/-- The filter with `Exclude = [a]` and nothing else set. -/
def filterExcludeA : Filter :=
  ⟨[], [], ["a".toList], [], none, none⟩

/-- The filter with `Include = [a]` and nothing else set. -/
def filterIncludeA : Filter :=
  ⟨[], ["a".toList], [], [], none, none⟩

/-- The assignment `f.Exclude = e` to the exported field. -/
def Filter.setExclude (f : Filter) (e : List GoString) : Filter :=
  { f with Exclude := e }

/-- The assignment `f.Include = i` to the exported field. -/
def Filter.setInclude (f : Filter) (i : List GoString) : Filter :=
  { f with Include := i }

/-- A filter queried once with `Exclude = [a]` and then given `Exclude = [b]`. -/
def filterExcludeStale : Filter :=
  (filterExcludeA.IsExcluded []).2.setExclude ["b".toList]

/-- A filter queried once with `Include = [a]` and then given `Include = [b]`. -/
def filterIncludeStale : Filter :=
  (filterIncludeA.IsIncluded []).2.setInclude ["b".toList]

/-! ## Notions used to state the properties of the caches -/

/-- What a client can do to a filter through its exported fields and the two
query methods. -/
inductive FilterOp where
  | assignExclude (e : List GoString)
  | assignInclude (i : List GoString)
  | queryExcluded (v : List GoString)
  | queryIncluded (v : List GoString)

/-- The filter after one client action. -/
def Filter.apply (f : Filter) : FilterOp → Filter
  | .assignExclude e => f.setExclude e
  | .assignInclude i => f.setInclude i
  | .queryExcluded v => (f.IsExcluded v).2
  | .queryIncluded v => (f.IsIncluded v).2

/-- The filter after a sequence of client actions, first action first. -/
def Filter.run (f : Filter) : List FilterOp → Filter
  | [] => f
  | op :: ops => Filter.run (f.apply op) ops

/-! ## Notions used to state the properties of `Retry` -/

/-- The state behind the operation after `n` invocations. -/
def stateAfter {σ : Type} (rfn : RetryFn σ) (s : σ) : Nat → σ
  | 0 => s
  | n + 1 => stateAfter rfn (rfn s).2 n

/-- What invocation number `i + 1` of the operation returns, counting from
state `s`. -/
def outcome {σ : Type} (rfn : RetryFn σ) (s : σ) (i : Nat) : Option GoError :=
  (rfn (stateAfter rfn s i)).1

/-- A transient-classified error: not one of the local types, and reported by
one of the three predicates of the remote library. -/
def TransientError (cls : Classifier) (e : GoError) : Prop :=
  isLocal e = false ∧ isTransient cls e = true

/-- The number of further invocations `Retry` can make after the first one:
the distance of `times - 1` from zero, counting down with wrap-around.  It is
`times - 1` when `times ≥ 1`. -/
def retryBudget (times : GoInt) : Nat :=
  ((times.val - 1) % 2 ^ 64).toNat

/-- The call `Retry(operation, 3, 30s)` of the specification, the interval in
nanoseconds. -/
def retryThreeTimesThirtySeconds {σ : Type} (cls : Classifier) (rfn : RetryFn σ)
    (w : World σ) : Option GoError × World σ :=
  Retry cls rfn ⟨3, by decide, by decide⟩ 30000000000 w

/-! ## Notions used to state the properties of target groups -/

/-- The text of a target before its first `.` (the whole target when it has
none). -/
def targetType (t : GoString) : GoString :=
  t.takeWhile (fun c => c != '.')

/-- The text of a target after its first `.` (empty when it has none). -/
def targetID (t : GoString) : GoString :=
  (t.dropWhile (fun c => c != '.')).drop 1

/-- The ids of the targets of type `ty`, in the order of the targets,
repetitions included. -/
def idsOfType (targets : List GoString) (ty : GoString) : List GoString :=
  (targets.filter (fun t => targetType t = ty)).map targetID

/-- A list with every repetition after the first occurrence dropped. -/
def firstOccurrences {α : Type} [DecidableEq α] : List α → List α
  | [] => []
  | x :: xs => x :: (firstOccurrences xs).filter (fun y => y ≠ x)

/-- What the loop of `TargetsTypesWithIDs` maintains after visiting the targets
`seen`: a type without a visited target is a key of neither map; for a type
with one, `types` holds the set of its ids and `res` their first occurrences
in order. -/
def TargetsInv (seen : List GoString) (st : TargetMaps) : Prop :=
  ∀ ty : GoString,
    (idsOfType seen ty = [] → GoMap.get st.1 ty = none ∧ GoMap.get st.2 ty = none) ∧
    (idsOfType seen ty ≠ [] →
      (∃ inner, GoMap.get st.1 ty = some inner ∧
        ∀ id, (GoMap.get inner id).isSome = true ↔ id ∈ idsOfType seen ty) ∧
      GoMap.get st.2 ty = some (firstOccurrences (idsOfType seen ty)))

/-! ## Maps and membership sets -/

theorem GoMap.get_set {V : Type} (m : GoMap V) (k k' : GoString) (v : V) :
    GoMap.get (GoMap.set m k v) k' = if k = k' then some v else GoMap.get m k' := by
  induction m with
  | nil => simp [GoMap.set, GoMap.get]
  | cons p rest ih =>
    obtain ⟨a, b⟩ := p
    by_cases hak : a = k
    · subst hak
      by_cases hak' : a = k' <;> simp [GoMap.set, GoMap.get, hak']
    · by_cases hak' : a = k'
      · subst hak'
        have hne : ¬ k = a := fun e => hak e.symm
        simp [GoMap.set, GoMap.get, hak, hne]
      · simp [GoMap.set, GoMap.get, hak, hak', ih]

theorem GoMap.get_set_self {V : Type} (m : GoMap V) (k : GoString) (v : V) :
    GoMap.get (GoMap.set m k v) k = some v := by
  simp [GoMap.get_set]

theorem GoMap.get_set_of_ne {V : Type} (m : GoMap V) {k k' : GoString} (v : V)
    (h : k ≠ k') : GoMap.get (GoMap.set m k v) k' = GoMap.get m k' := by
  simp [GoMap.get_set, h]

theorem fillSet_get_isSome (aux : GoMap Unit) (es : List GoString) (k : GoString) :
    (GoMap.get (fillSet aux es) k).isSome = true ↔
      (GoMap.get aux k).isSome = true ∨ k ∈ es := by
  induction es generalizing aux with
  | nil => simp [fillSet]
  | cons e es ih =>
    rw [fillSet, ih, GoMap.get_set]
    by_cases hek : e = k
    · subst hek
      simp
    · have hke : ¬ k = e := fun h => hek h.symm
      simp [hek, hke]

theorem hasKey_fillSet (es : List GoString) (k : GoString) :
    hasKey (some (fillSet [] es)) k = true ↔ k ∈ es := by
  simp [hasKey, fillSet_get_isSome, GoMap.get]

/-! ## `IsExcluded` and `IsIncluded` -/

/-- C1: on a filter whose exclude cache is not built, `IsExcluded` answers true
exactly when `Exclude` is non-empty and every identifier passed is an element of
`Exclude`; so it is false for all identifiers when `Exclude` is empty, and true
for no identifiers at all when `Exclude` is non-empty. -/
theorem IsExcluded_iff (f : Filter) (v : List GoString) (h : f.excludeMap = none) :
    ((f.IsExcluded v).1 = true ↔ (f.Exclude ≠ [] ∧ ∀ x ∈ v, x ∈ f.Exclude))
    ∧ (f.Exclude = [] → (f.IsExcluded v).1 = false)
    ∧ (f.Exclude ≠ [] → (f.IsExcluded []).1 = true) := by
  by_cases hE : f.Exclude = []
  · simp [Filter.IsExcluded, hE]
  · simp [Filter.IsExcluded, hE, h, Filter.calculateExcludeMap, hasKey_fillSet]

/-- C1, on `Exclude = [a, b]`: `IsExcluded(a)` is true, `IsExcluded(a, c)` is
false and `IsExcluded()` is true. -/
theorem IsExcluded_iff_witness :
    filterExcludeAB.excludeMap = none
    ∧ (filterExcludeAB.IsExcluded ["a".toList]).1 = true
    ∧ (filterExcludeAB.IsExcluded ["a".toList, "c".toList]).1 = false
    ∧ (filterExcludeAB.IsExcluded []).1 = true :=
  ⟨rfl,
   (IsExcluded_iff filterExcludeAB ["a".toList] rfl).1.2 ⟨by decide, by decide⟩,
   by
     have hiff := (IsExcluded_iff filterExcludeAB ["a".toList, "c".toList] rfl).1
     have hnot : ¬ (filterExcludeAB.Exclude ≠ [] ∧
         ∀ x ∈ ["a".toList, "c".toList], x ∈ filterExcludeAB.Exclude) := by decide
     exact Bool.eq_false_iff.mpr (fun ht => hnot (hiff.1 ht)),
   (IsExcluded_iff filterExcludeAB [] rfl).2.2 (by decide)⟩

/-- C2: on a filter whose include cache is not built, `IsIncluded` answers true
exactly when `Include` is empty or every identifier passed is an element of
`Include`. -/
theorem IsIncluded_iff (f : Filter) (v : List GoString) (h : f.includeMap = none) :
    (f.IsIncluded v).1 = true ↔ (f.Include = [] ∨ ∀ x ∈ v, x ∈ f.Include) := by
  by_cases hI : f.Include = []
  · simp [Filter.IsIncluded, hI]
  · simp [Filter.IsIncluded, hI, h, Filter.calculateIncludeMap, hasKey_fillSet]

/-- C2, on `Include = [x]`: `IsIncluded(x)` is true and `IsIncluded(x, y)` is
false. -/
theorem IsIncluded_iff_witness :
    filterIncludeX.includeMap = none
    ∧ (filterIncludeX.IsIncluded ["x".toList]).1 = true
    ∧ (filterIncludeX.IsIncluded ["x".toList, "y".toList]).1 = false :=
  ⟨rfl,
   (IsIncluded_iff filterIncludeX ["x".toList] rfl).2 (Or.inr (by decide)),
   by
     have hiff := IsIncluded_iff filterIncludeX ["x".toList, "y".toList] rfl
     have hnot : ¬ (filterIncludeX.Include = [] ∨
         ∀ x ∈ ["x".toList, "y".toList], x ∈ filterIncludeX.Include) := by decide
     exact Bool.eq_false_iff.mpr (fun ht => hnot (hiff.1 ht))⟩

/-! ## Splitting a target -/

theorem Index_of_not_mem (s : GoString) (sep : Char) (h : sep ∉ s) : Index s sep = -1 := by
  induction s with
  | nil => rfl
  | cons c cs ih =>
    have hc : ¬ c = sep := fun e => h (by simp [e])
    have hcs : sep ∉ cs := fun e => h (by simp [e])
    simp [Index, hc, ih hcs]

theorem Index_of_mem (s : GoString) (sep : Char) (h : sep ∈ s) :
    Index s sep = ((s.takeWhile (fun c => c != sep)).length : Int) := by
  induction s with
  | nil => simp at h
  | cons c cs ih =>
    by_cases hc : c = sep
    · simp [Index, hc]
    · have hcs : sep ∈ cs := by
        rcases List.mem_cons.1 h with e | e
        · exact absurd e.symm hc
        · exact e
      have hnn : ¬ ((List.takeWhile (fun c => c != sep) cs).length : Int) < 0 := by omega
      simp [Index, hc, ih hcs, List.takeWhile_cons, hnn]

theorem Contains_iff (s : GoString) (sep : Char) : Contains s sep = true ↔ sep ∈ s := by
  unfold Contains
  by_cases h : sep ∈ s
  · simp [Index_of_mem s sep h, h]
  · simp [Index_of_not_mem s sep h, h]

theorem targetType_append_targetID (t : GoString) (h : '.' ∈ t) :
    targetType t ++ '.' :: targetID t = t := by
  induction t with
  | nil => simp at h
  | cons c cs ih =>
    by_cases hc : c = '.'
    · simp [targetType, targetID, hc]
    · have hcs : '.' ∈ cs := by
        rcases List.mem_cons.1 h with e | e
        · exact absurd e.symm hc
        · exact e
      have := ih hcs
      simp only [targetType, targetID, List.drop_one] at this ⊢
      simp [List.takeWhile_cons, List.dropWhile_cons, hc, this]

theorem not_mem_targetType (t : GoString) : '.' ∉ targetType t := by
  induction t with
  | nil => simp [targetType]
  | cons c cs ih =>
    by_cases hc : c = '.'
    · simp [targetType, hc]
    · have hc' : ¬ '.' = c := fun e => hc e.symm
      simp only [targetType] at ih ⊢
      simp [List.takeWhile_cons, hc, hc', ih]

theorem targetType_append (ty id : GoString) (h : '.' ∉ ty) :
    targetType (ty ++ '.' :: id) = ty ∧ targetID (ty ++ '.' :: id) = id := by
  induction ty with
  | nil => simp [targetType, targetID]
  | cons c cs ih =>
    have hc : ¬ c = '.' := fun e => h (by simp [e])
    have hcs : '.' ∉ cs := fun e => h (by simp [e])
    have := ih hcs
    simp only [targetType, targetID] at this ⊢
    simp [List.takeWhile_cons, List.dropWhile_cons, hc, this]

theorem SplitN_two_of_mem (t : GoString) (h : '.' ∈ t) :
    SplitN t '.' 2 = [targetType t, targetID t] := by
  have hlen : 0 < t.length := List.length_pos_of_mem h
  have hclamp : ¬ (2 : Int) > (t.length : Int) + 1 := by omega
  have hidx := Index_of_mem t '.' h
  have hcat := List.takeWhile_append_dropWhile (fun c => c != '.') t
  have hcut : ∀ a b : List Char, a ++ b = t →
      t.take a.length = a ∧ t.drop (a.length + 1) = b.drop 1 := by
    intro a b e
    subst e
    constructor
    · simp
    · rw [Nat.add_comm, ← List.drop_drop]
      simp
  obtain ⟨htake, hdrop⟩ := hcut _ _ hcat
  simp [SplitN, hclamp, genSplitLoop, hidx, targetType, targetID, htake, hdrop]

theorem SplitN_two_of_not_mem (t : GoString) (h : '.' ∉ t) : SplitN t '.' 2 = [t] := by
  have hidx := Index_of_not_mem t '.' h
  by_cases hc : (2 : Int) > (t.length : Int) + 1
  · have ht : t = [] := List.length_eq_zero.mp (by omega)
    subst ht
    simp [SplitN, genSplitLoop]
  · simp [SplitN, hc, genSplitLoop, hidx]

/-! ## First occurrences -/

theorem mem_firstOccurrences {α : Type} [DecidableEq α] (l : List α) (x : α) :
    x ∈ firstOccurrences l ↔ x ∈ l := by
  induction l with
  | nil => simp [firstOccurrences]
  | cons a l ih =>
    by_cases hxa : x = a
    · simp [firstOccurrences, hxa]
    · simp [firstOccurrences, hxa, List.mem_filter, ih]

theorem nodup_firstOccurrences {α : Type} [DecidableEq α] (l : List α) :
    (firstOccurrences l).Nodup := by
  induction l with
  | nil => simp [firstOccurrences]
  | cons a l ih =>
    simp only [firstOccurrences, List.nodup_cons]
    exact ⟨by simp [List.mem_filter], ih.filter _⟩

theorem firstOccurrences_sublist {α : Type} [DecidableEq α] (l : List α) :
    (firstOccurrences l).Sublist l := by
  induction l with
  | nil => simp [firstOccurrences]
  | cons a l ih =>
    simp only [firstOccurrences]
    exact List.Sublist.cons₂ a ((List.filter_sublist _).trans ih)

theorem firstOccurrences_eq_nil {α : Type} [DecidableEq α] (l : List α) :
    firstOccurrences l = [] ↔ l = [] := by
  cases l <;> simp [firstOccurrences]

theorem firstOccurrences_append_singleton {α : Type} [DecidableEq α] (l : List α) (x : α) :
    firstOccurrences (l ++ [x]) = if x ∈ l then firstOccurrences l else firstOccurrences l ++ [x] := by
  induction l with
  | nil => simp [firstOccurrences]
  | cons a l ih =>
    rw [List.cons_append, firstOccurrences, firstOccurrences, ih]
    by_cases hxl : x ∈ l
    · simp [hxl]
    · by_cases hxa : x = a
      · subst hxa
        simp [hxl, List.filter_append]
      · have hax : ¬ a = x := fun e => hxa e.symm
        simp [hxl, hxa, hax, List.filter_append]

/-! ## The loop of `TargetsTypesWithIDs` -/

theorem idsOfType_append_singleton (seen : List GoString) (t ty : GoString) :
    idsOfType (seen ++ [t]) ty =
      idsOfType seen ty ++ (if targetType t = ty then [targetID t] else []) := by
  by_cases h : targetType t = ty <;> simp [idsOfType, List.filter_append, h, List.filter_cons]

theorem mem_idsOfType (targets : List GoString) (ty id : GoString) :
    id ∈ idsOfType targets ty ↔ ∃ t ∈ targets, targetType t = ty ∧ targetID t = id := by
  simp [idsOfType, List.mem_map, List.mem_filter, and_assoc]

theorem idsOfType_ne_nil (targets : List GoString) (ty : GoString) :
    idsOfType targets ty ≠ [] ↔ ∃ t ∈ targets, targetType t = ty := by
  constructor
  · intro h
    obtain ⟨id, hid⟩ := List.exists_mem_of_ne_nil _ h
    obtain ⟨t, ht, hty, _⟩ := (mem_idsOfType targets ty id).1 hid
    exact ⟨t, ht, hty⟩
  · rintro ⟨t, ht, hty⟩ h
    have : targetID t ∈ idsOfType targets ty := (mem_idsOfType targets ty _).2 ⟨t, ht, hty, rfl⟩
    rw [h] at this
    simp at this

theorem targetsStep_of_mem (st : TargetMaps) (t : GoString) (ht : '.' ∈ t) :
    targetsStep st t =
      some (
        if (GoMap.get st.1 (targetType t)).isNone then
          (GoMap.set (GoMap.set st.1 (targetType t) []) (targetType t) [(targetID t, ())],
           GoMap.set (GoMap.set st.2 (targetType t) []) (targetType t) [targetID t])
        else if (GoMap.get ((GoMap.get st.1 (targetType t)).getD []) (targetID t)).isNone then
          (GoMap.set st.1 (targetType t)
             (GoMap.set ((GoMap.get st.1 (targetType t)).getD []) (targetID t) ()),
           GoMap.set st.2 (targetType t) ((GoMap.get st.2 (targetType t)).getD [] ++ [targetID t]))
        else st) := by
  have hsplit := SplitN_two_of_mem t ht
  unfold targetsStep
  simp only [hsplit, List.getElem?_cons_zero, List.getElem?_cons_succ]
  by_cases h1 : (GoMap.get st.1 (targetType t)).isNone = true
  · simp [h1, GoMap.get_set_self, GoMap.get, GoMap.set]
  · by_cases h2 : (GoMap.get ((GoMap.get st.1 (targetType t)).getD []) (targetID t)).isNone = true
    · simp [h1, h2]
    · simp [h1, h2]

theorem targetsStep_inv (seen : List GoString) (st : TargetMaps) (t : GoString)
    (hinv : TargetsInv seen st) (ht : '.' ∈ t) :
    ∃ st', targetsStep st t = some st' ∧ TargetsInv (seen ++ [t]) st' := by
  refine ⟨_, targetsStep_of_mem st t ht, ?_⟩
  intro ty
  rw [idsOfType_append_singleton]
  obtain ⟨hn0, hs0⟩ := hinv (targetType t)
  by_cases hty : targetType t = ty
  · subst hty
    by_cases hids : idsOfType seen (targetType t) = []
    · obtain ⟨h1, h2⟩ := hn0 hids
      simp [h1, h2, hids, GoMap.get_set_self, firstOccurrences, GoMap.get]
      intro id
      constructor
      · intro h
        by_contra hne
        have hne' : ¬ targetID t = id := fun e => hne e.symm
        simp [hne'] at h
      · intro h
        simp [h]
    · obtain ⟨⟨inner, hin, hmem⟩, hres⟩ := hs0 hids
      by_cases hid : (GoMap.get inner (targetID t)).isSome = true
      · have hidm : targetID t ∈ idsOfType seen (targetType t) := (hmem _).1 hid
        have hnn : ¬ (GoMap.get inner (targetID t)).isNone = true := by
          simp [Option.isSome_iff_ne_none.mp hid]
        simp only [hin, Option.isNone_some, Option.getD_some, hnn, if_true, if_false,
          Bool.false_eq_true]
        refine ⟨fun h => absurd h (by simp), fun _ => ⟨⟨inner, rfl, ?_⟩, ?_⟩⟩
        · intro id
          rw [hmem id]
          constructor
          · intro h
            exact List.mem_append_left _ h
          · intro h
            rcases List.mem_append.1 h with h | h
            · exact h
            · rw [List.mem_singleton.1 h]
              exact hidm
        · rw [hres, firstOccurrences_append_singleton, if_pos hidm]
      · have hidm : targetID t ∉ idsOfType seen (targetType t) := fun h => hid ((hmem _).2 h)
        have hnn : (GoMap.get inner (targetID t)).isNone = true := by
          cases hg : GoMap.get inner (targetID t) with
          | none => rfl
          | some u => simp [hg] at hid
        simp only [hin, Option.isNone_some, Option.getD_some, hnn, if_true, if_false,
          Bool.false_eq_true, GoMap.get_set_self, hres]
        refine ⟨fun h => absurd h (by simp), fun _ => ⟨⟨_, rfl, ?_⟩, ?_⟩⟩
        · intro id
          rw [GoMap.get_set]
          by_cases hidid : targetID t = id
          · subst hidid
            simp
          · have hidid' : ¬ id = targetID t := fun e => hidid e.symm
            simp [hidid, hidid', hmem id]
        · rw [firstOccurrences_append_singleton, if_neg hidm]
  · obtain ⟨hn, hs⟩ := hinv ty
    have hframe : ∀ st' : TargetMaps,
        (st' = (if (GoMap.get st.1 (targetType t)).isNone then
          (GoMap.set (GoMap.set st.1 (targetType t) []) (targetType t) [(targetID t, ())],
           GoMap.set (GoMap.set st.2 (targetType t) []) (targetType t) [targetID t])
        else if (GoMap.get ((GoMap.get st.1 (targetType t)).getD []) (targetID t)).isNone then
          (GoMap.set st.1 (targetType t)
             (GoMap.set ((GoMap.get st.1 (targetType t)).getD []) (targetID t) ()),
           GoMap.set st.2 (targetType t) ((GoMap.get st.2 (targetType t)).getD [] ++ [targetID t]))
        else st)) →
        GoMap.get st'.1 ty = GoMap.get st.1 ty ∧ GoMap.get st'.2 ty = GoMap.get st.2 ty := by
      intro st' e
      subst e
      split_ifs <;> simp [GoMap.get_set_of_ne _ _ hty]
    obtain ⟨hf1, hf2⟩ := hframe _ rfl
    rw [hf1, hf2]
    simpa [hty] using ⟨hn, hs⟩

theorem targetsLoop_inv (ts seen : List GoString) (st : TargetMaps)
    (hinv : TargetsInv seen st) (hts : ∀ t ∈ ts, '.' ∈ t) :
    ∃ st', targetsLoop ts st = some st' ∧ TargetsInv (seen ++ ts) st' := by
  induction ts generalizing seen st with
  | nil => exact ⟨st, rfl, by simpa using hinv⟩
  | cons t ts ih =>
    obtain ⟨st1, hstep, hinv1⟩ := targetsStep_inv seen st t hinv (hts t (by simp))
    obtain ⟨st2, hloop, hinv2⟩ := ih (seen ++ [t]) st1 hinv1 (fun u hu => hts u (by simp [hu]))
    refine ⟨st2, ?_, by simpa using hinv2⟩
    simp [targetsLoop, hstep, hloop]

theorem TargetsInv_nil : TargetsInv [] ([], []) := by
  intro ty
  simp [idsOfType, GoMap.get]

theorem TargetsTypesWithIDs_inv (f : Filter) (h : ∀ t ∈ f.Targets, '.' ∈ t) :
    ∃ st, f.TargetsTypesWithIDs = some st.2 ∧ TargetsInv f.Targets st := by
  obtain ⟨st, hloop, hinv⟩ := targetsLoop_inv f.Targets [] ([], []) TargetsInv_nil h
  exact ⟨st, by simp [Filter.TargetsTypesWithIDs, hloop], by simpa using hinv⟩

/-! ## `TargetsTypesWithIDs` -/

/-- C3: when every target contains `.`, `TargetsTypesWithIDs` returns a map in
which the sequence read at any type `ty` is the list of ids of the targets of
type `ty`, in target order, with every repetition after the first dropped; the
sequence has no duplicates and is a subsequence of those ids. -/
theorem TargetsTypesWithIDs_groups (f : Filter) (h : ∀ t ∈ f.Targets, '.' ∈ t) :
    ∃ res, f.TargetsTypesWithIDs = some res ∧ ∀ ty,
      (GoMap.get res ty).getD [] = firstOccurrences (idsOfType f.Targets ty)
      ∧ ((GoMap.get res ty).getD []).Nodup
      ∧ ((GoMap.get res ty).getD []).Sublist (idsOfType f.Targets ty) := by
  obtain ⟨st, hres, hinv⟩ := TargetsTypesWithIDs_inv f h
  refine ⟨st.2, hres, fun ty => ?_⟩
  have heq : (GoMap.get st.2 ty).getD [] = firstOccurrences (idsOfType f.Targets ty) := by
    by_cases hids : idsOfType f.Targets ty = []
    · simp [((hinv ty).1 hids).2, hids, firstOccurrences]
    · simp [((hinv ty).2 hids).2]
  rw [heq]
  exact ⟨rfl, nodup_firstOccurrences _, firstOccurrences_sublist _⟩

/-- C3, on the targets `aws_instance.1`, `aws_instance.2`, `aws_instance.1`,
`aws_vpc.9`: the result maps `aws_instance` to `[1, 2]` and `aws_vpc` to `[9]`. -/
theorem TargetsTypesWithIDs_groups_witness :
    (∀ t ∈ filterFourTargets.Targets, '.' ∈ t)
    ∧ filterFourTargets.TargetsTypesWithIDs =
        some [("aws_instance".toList, ["1".toList, "2".toList]),
              ("aws_vpc".toList, ["9".toList])]
    ∧ ∃ res, filterFourTargets.TargetsTypesWithIDs = some res ∧ ∀ ty,
        (GoMap.get res ty).getD [] = firstOccurrences (idsOfType filterFourTargets.Targets ty)
        ∧ ((GoMap.get res ty).getD []).Nodup
        ∧ ((GoMap.get res ty).getD []).Sublist (idsOfType filterFourTargets.Targets ty) :=
  ⟨by decide, by decide, TargetsTypesWithIDs_groups filterFourTargets (by decide)⟩

/-- C4: when every target contains `.`, an id is in the sequence the result
holds for key `ty` exactly when `ty` has no `.` and `ty ++ "." ++ id` is one of
the targets: each target is cut at its first `.` only. -/
theorem TargetsTypesWithIDs_pair_iff (f : Filter) (h : ∀ t ∈ f.Targets, '.' ∈ t) :
    ∃ res, f.TargetsTypesWithIDs = some res ∧ ∀ ty id : GoString,
      (∃ seq, GoMap.get res ty = some seq ∧ id ∈ seq) ↔
        ('.' ∉ ty ∧ ty ++ ['.'] ++ id ∈ f.Targets) := by
  obtain ⟨st, hres, hinv⟩ := TargetsTypesWithIDs_inv f h
  refine ⟨st.2, hres, fun ty id => ?_⟩
  have hright : ('.' ∉ ty ∧ ty ++ ['.'] ++ id ∈ f.Targets) ↔ id ∈ idsOfType f.Targets ty := by
    rw [mem_idsOfType]
    constructor
    · rintro ⟨hty, hmem⟩
      have hs := targetType_append ty id hty
      refine ⟨ty ++ ['.'] ++ id, hmem, ?_, ?_⟩
      · simpa using hs.1
      · simpa using hs.2
    · rintro ⟨t, ht, hty, hid⟩
      have hcat := targetType_append_targetID t (h t ht)
      rw [hty, hid] at hcat
      refine ⟨?_, ?_⟩
      · rw [← hty]
        exact not_mem_targetType t
      · have : ty ++ ['.'] ++ id = t := by simpa using hcat
        rw [this]
        exact ht
  rw [hright]
  by_cases hids : idsOfType f.Targets ty = []
  · simp [((hinv ty).1 hids).2, hids]
  · simp [((hinv ty).2 hids).2, mem_firstOccurrences]

/-- C4, on the single target `a.b.c`: the result is `a ↦ [b.c]`, so the id
`b.c` keeps its own `.`. -/
theorem TargetsTypesWithIDs_pair_iff_witness :
    (∀ t ∈ filterDottedID.Targets, '.' ∈ t)
    ∧ filterDottedID.TargetsTypesWithIDs = some [("a".toList, ["b.c".toList])]
    ∧ ∃ res, filterDottedID.TargetsTypesWithIDs = some res ∧ ∀ ty id : GoString,
        (∃ seq, GoMap.get res ty = some seq ∧ id ∈ seq) ↔
          ('.' ∉ ty ∧ ty ++ ['.'] ++ id ∈ filterDottedID.Targets) :=
  ⟨by decide, by decide, TargetsTypesWithIDs_pair_iff filterDottedID (by decide)⟩

/-- C5: when every target contains `.`, the keys of the map returned by
`TargetsTypesWithIDs` are exactly the types of the targets, no key is mapped to
an empty sequence, and the map is empty when there are no targets. -/
theorem TargetsTypesWithIDs_keys (f : Filter) (h : ∀ t ∈ f.Targets, '.' ∈ t) :
    ∃ res, f.TargetsTypesWithIDs = some res
      ∧ (∀ ty, (GoMap.get res ty).isSome = true ↔ ∃ t ∈ f.Targets, targetType t = ty)
      ∧ (∀ ty, GoMap.get res ty ≠ some [])
      ∧ (f.Targets = [] → res = []) := by
  obtain ⟨st, hres, hinv⟩ := TargetsTypesWithIDs_inv f h
  refine ⟨st.2, hres, fun ty => ?_, fun ty => ?_, fun hnil => ?_⟩
  · rw [← idsOfType_ne_nil]
    by_cases hids : idsOfType f.Targets ty = []
    · simp [((hinv ty).1 hids).2, hids]
    · simp [((hinv ty).2 hids).2, hids]
  · by_cases hids : idsOfType f.Targets ty = []
    · simp [((hinv ty).1 hids).2]
    · simp [((hinv ty).2 hids).2, firstOccurrences_eq_nil, hids]
  · have hcomp : f.TargetsTypesWithIDs = some [] := by
      simp [Filter.TargetsTypesWithIDs, hnil, targetsLoop]
    rw [hcomp] at hres
    exact (Option.some.inj hres).symm

/-- C5, on the four targets of the grouping example: the keys are
`aws_instance` and `aws_vpc`. -/
theorem TargetsTypesWithIDs_keys_witness :
    (∀ t ∈ filterFourTargets.Targets, '.' ∈ t)
    ∧ ∃ res, filterFourTargets.TargetsTypesWithIDs = some res
      ∧ (∀ ty, (GoMap.get res ty).isSome = true ↔
          ∃ t ∈ filterFourTargets.Targets, targetType t = ty)
      ∧ (∀ ty, GoMap.get res ty ≠ some [])
      ∧ (filterFourTargets.Targets = [] → res = []) :=
  ⟨by decide, TargetsTypesWithIDs_keys filterFourTargets (by decide)⟩

/-! ## `Validate` -/

theorem validateLoop_isSome (E : GoError) (ts : List GoString) :
    (validateLoop E ts).isSome = true ↔ ∃ t ∈ ts, '.' ∉ t := by
  induction ts with
  | nil => simp [validateLoop]
  | cons t ts ih =>
    by_cases ht : '.' ∈ t
    · have hc : Contains t '.' = true := (Contains_iff t '.').2 ht
      simp [validateLoop, hc, ih, ht]
    · have hc : Contains t '.' = false := by
        cases hb : Contains t '.' with
        | false => rfl
        | true => exact absurd ((Contains_iff t '.').1 hb) ht
      simp [validateLoop, hc, Wrapf, ht]

/-- C6: `Validate` returns an error exactly when some target contains no `.`;
it accepts no targets at all, the targets `.123` and `type.` with an empty
segment, and `aws_instance.123`, and it rejects `badtarget`. -/
theorem Validate_error_iff (E : GoError) :
    (∀ f : Filter, (f.Validate E).isSome = true ↔ ∃ t ∈ f.Targets, '.' ∉ t)
    ∧ (filterWithTargets []).Validate E = none
    ∧ (filterWithTargets [".123".toList]).Validate E = none
    ∧ (filterWithTargets ["type.".toList]).Validate E = none
    ∧ (filterWithTargets ["aws_instance.123".toList]).Validate E = none
    ∧ ((filterWithTargets ["badtarget".toList]).Validate E).isSome = true := by
  have hiff : ∀ f : Filter, (f.Validate E).isSome = true ↔ ∃ t ∈ f.Targets, '.' ∉ t := by
    intro f
    by_cases hT : f.Targets = []
    · simp [Filter.Validate, hT]
    · simp [Filter.Validate, hT, validateLoop_isSome]
  have hnone : ∀ f : Filter, (∀ t ∈ f.Targets, '.' ∈ t) → f.Validate E = none := by
    intro f hall
    cases hv : f.Validate E with
    | none => rfl
    | some e =>
      obtain ⟨t, ht, hdot⟩ := (hiff f).1 (by simp [hv])
      exact absurd (hall t ht) hdot
  refine ⟨hiff, hnone _ (by decide), hnone _ (by decide), hnone _ (by decide),
    hnone _ (by decide), (hiff _).2 (by decide)⟩

/-! ## `Retry` -/

theorem GoInt.dec_val_of_pos (t : GoInt) (h : 1 ≤ t.val) : t.dec.val = t.val - 1 := by
  have h2 := t.hi
  simp only [GoInt.dec, wrapInt]
  omega

theorem Retry_of_success {σ : Type} (cls : Classifier) (rfn : RetryFn σ) (times : GoInt)
    (interval : Duration) (w : World σ) (h : (rfn w.op).1 = none) :
    Retry cls rfn times interval w =
      (none, { w with op := (rfn w.op).2, calls := w.calls + 1 }) := by
  rw [Retry]
  simp [h]

theorem Retry_of_stop {σ : Type} (cls : Classifier) (rfn : RetryFn σ) (times : GoInt)
    (interval : Duration) (w : World σ) (e : GoError) (h : (rfn w.op).1 = some e)
    (hstop : times.dec.val = 0 ∨ isLocal e = true ∨ isTransient cls e = false) :
    Retry cls rfn times interval w =
      (some e, { w with op := (rfn w.op).2, calls := w.calls + 1 }) := by
  rw [Retry]
  simp only [h]
  by_cases h0 : times.dec.val = 0
  · simp [h0]
  · by_cases hl : isLocal e = true
    · simp [h0, hl]
    · rcases hstop with h1 | h1 | h1
      · exact absurd h1 h0
      · exact absurd h1 hl
      · simp [h0, hl, h1]

theorem Retry_of_again {σ : Type} (cls : Classifier) (rfn : RetryFn σ) (times : GoInt)
    (interval : Duration) (w : World σ) (e : GoError) (h : (rfn w.op).1 = some e)
    (h0 : times.dec.val ≠ 0) (hl : isLocal e = false) (ht : isTransient cls e = true) :
    Retry cls rfn times interval w =
      Retry cls rfn times.dec interval
        { op := (rfn w.op).2, calls := w.calls + 1,
          sleeps := w.sleeps ++ [interval], logs := w.logs ++ [(e, times.dec.val)] } := by
  rw [Retry]
  simp [h, h0, hl, ht]

theorem isLocal_of_typeName (e : GoError)
    (h : typeName e = "*errors.errorString".toList ∨ typeName e = "*errors.fundamental".toList
      ∨ typeName e = "*errors.withStack".toList ∨ typeName e = "*errors.withMessage".toList) :
    isLocal e = true := by
  unfold isLocal
  rcases h with h | h | h | h <;> rw [h] <;> decide

/-- C7: when the first invocation of the operation returns an error whose
concrete type is one of the four local ones, `Retry` returns that error after
one invocation, without waiting or logging, for every value of `times`, every
interval and every classification by the remote library. -/
theorem Retry_local_immediate {σ : Type} (cls : Classifier) (rfn : RetryFn σ) (times : GoInt)
    (interval : Duration) (w : World σ) (e : GoError)
    (hfirst : outcome rfn w.op 0 = some e)
    (hlocal : typeName e = "*errors.errorString".toList
      ∨ typeName e = "*errors.fundamental".toList
      ∨ typeName e = "*errors.withStack".toList
      ∨ typeName e = "*errors.withMessage".toList) :
    (Retry cls rfn times interval w).1 = some e
    ∧ (Retry cls rfn times interval w).2.calls = w.calls + 1
    ∧ (Retry cls rfn times interval w).2.sleeps = w.sleeps
    ∧ (Retry cls rfn times interval w).2.logs = w.logs
    ∧ (Retry cls rfn times interval w).2.op = stateAfter rfn w.op 1 := by
  have h : (rfn w.op).1 = some e := hfirst
  rw [Retry_of_stop cls rfn times interval w e h (Or.inr (Or.inl (isLocal_of_typeName e hlocal)))]
  exact ⟨rfl, rfl, rfl, rfl, rfl⟩

/-- C7, with three attempts, a thirty-second interval and a classifier that
calls every error retryable: an operation failing with a `*errors.fundamental`
error is invoked once and never waited for. -/
theorem Retry_local_immediate_witness :
    outcome alwaysLocal (World.start 0).op 0 = some (.fundamental "not found".toList)
    ∧ isTransient retryAll (.fundamental "not found".toList) = true
    ∧ (Retry retryAll alwaysLocal timesDefault intervalDefault (World.start 0)).1
        = some (.fundamental "not found".toList)
    ∧ (Retry retryAll alwaysLocal timesDefault intervalDefault (World.start 0)).2.calls = 1
    ∧ (Retry retryAll alwaysLocal timesDefault intervalDefault (World.start 0)).2.sleeps = [] := by
  have h := Retry_local_immediate retryAll alwaysLocal timesDefault intervalDefault
    (World.start 0) (.fundamental "not found".toList) rfl (Or.inr (Or.inl rfl))
  exact ⟨rfl, rfl, h.1, h.2.1, h.2.2.1⟩

theorem transientError_remoteError (d : GoString) : TransientError retryAll (remoteError d) :=
  ⟨rfl, rfl⟩

/-- C8: if the first `k` invocations of the operation fail with transient
errors and invocation `k + 1` succeeds, then `Retry` with more than `k`
attempts returns success after exactly `k + 1` invocations and exactly `k`
waits, each of the given interval. -/
theorem Retry_succeeds_after {σ : Type} (cls : Classifier) (rfn : RetryFn σ) (k : Nat)
    (times : GoInt) (interval : Duration) (w : World σ)
    (hk : (k : Int) < times.val)
    (hfail : ∀ i, i < k → ∃ e, outcome rfn w.op i = some e ∧ TransientError cls e)
    (hok : outcome rfn w.op k = none) :
    (Retry cls rfn times interval w).1 = none
    ∧ (Retry cls rfn times interval w).2.calls = w.calls + (k + 1)
    ∧ (Retry cls rfn times interval w).2.sleeps = w.sleeps ++ List.replicate k interval := by
  induction k generalizing times w with
  | zero =>
    have h : (rfn w.op).1 = none := hok
    rw [Retry_of_success cls rfn times interval w h]
    simp
  | succ k ih =>
    obtain ⟨e, he, hl, ht⟩ := hfail 0 (Nat.succ_pos k)
    have h : (rfn w.op).1 = some e := he
    have hdec : times.dec.val = times.val - 1 := GoInt.dec_val_of_pos times (by omega)
    have h0 : times.dec.val ≠ 0 := by omega
    rw [Retry_of_again cls rfn times interval w e h h0 hl ht]
    obtain ⟨r1, r2, r3⟩ := ih times.dec
      { op := (rfn w.op).2, calls := w.calls + 1,
        sleeps := w.sleeps ++ [interval], logs := w.logs ++ [(e, times.dec.val)] }
      (by omega) (fun i hi => hfail (i + 1) (Nat.succ_lt_succ hi)) hok
    refine ⟨r1, ?_, ?_⟩
    · rw [r2]
      show w.calls + 1 + (k + 1) = w.calls + (k + 1 + 1)
      omega
    · rw [r3]
      simp [List.replicate_succ]

/-- C8, on an operation that fails twice with a remote error and then
succeeds, with three attempts: success, three invocations, two waits of the
interval; and on one that succeeds at once: one invocation and no wait. -/
theorem Retry_succeeds_after_witness :
    ((2 : Int) < timesDefault.val
      ∧ (∀ i, i < 2 → ∃ e, outcome (failsThenSucceeds 2) (World.start 0).op i = some e
            ∧ TransientError retryAll e)
      ∧ outcome (failsThenSucceeds 2) (World.start 0).op 2 = none
      ∧ (Retry retryAll (failsThenSucceeds 2) timesDefault intervalDefault (World.start 0)).1
          = none
      ∧ (Retry retryAll (failsThenSucceeds 2) timesDefault intervalDefault (World.start 0)).2.calls
          = 3
      ∧ (Retry retryAll (failsThenSucceeds 2) timesDefault intervalDefault (World.start 0)).2.sleeps
          = [intervalDefault, intervalDefault])
    ∧ ((Retry retryAll (failsThenSucceeds 0) timesDefault intervalDefault (World.start 0)).1
          = none
      ∧ (Retry retryAll (failsThenSucceeds 0) timesDefault intervalDefault (World.start 0)).2.calls
          = 1
      ∧ (Retry retryAll (failsThenSucceeds 0) timesDefault intervalDefault (World.start 0)).2.sleeps
          = []) := by
  have hfail : ∀ i, i < 2 → ∃ e, outcome (failsThenSucceeds 2) (World.start 0).op i = some e
      ∧ TransientError retryAll e := by
    intro i hi
    refine ⟨remoteError (List.replicate i 'x'), ?_, transientError_remoteError _⟩
    interval_cases i <;> rfl
  have h2 := Retry_succeeds_after retryAll (failsThenSucceeds 2) 2 timesDefault intervalDefault
    (World.start 0) (by decide) hfail rfl
  have h0 := Retry_succeeds_after retryAll (failsThenSucceeds 0) 0 timesDefault intervalDefault
    (World.start 0) (by decide) (fun i hi => absurd hi (Nat.not_lt_zero i)) rfl
  exact ⟨⟨by decide, hfail, rfl, h2.1, h2.2.1, h2.2.2⟩, h0.1, h0.2.1, h0.2.2⟩

/-- C9: if every invocation of the operation fails with a transient error,
then `Retry` with `n ≥ 1` attempts invokes it exactly `n` times, waits exactly
`n - 1` times, and returns the error of the `n`-th invocation. -/
theorem Retry_exhausts {σ : Type} (cls : Classifier) (rfn : RetryFn σ) (n : Nat)
    (times : GoInt) (interval : Duration) (w : World σ)
    (hn : 1 ≤ n) (htimes : times.val = (n : Int))
    (hfail : ∀ i, ∃ e, outcome rfn w.op i = some e ∧ TransientError cls e) :
    (Retry cls rfn times interval w).1 = outcome rfn w.op (n - 1)
    ∧ (∃ e, (Retry cls rfn times interval w).1 = some e)
    ∧ (Retry cls rfn times interval w).2.calls = w.calls + n
    ∧ (Retry cls rfn times interval w).2.sleeps = w.sleeps ++ List.replicate (n - 1) interval := by
  obtain ⟨m, rfl⟩ : ∃ m, n = m + 1 := ⟨n - 1, by omega⟩
  clear hn
  induction m generalizing times w with
  | zero =>
    obtain ⟨e, he, _, _⟩ := hfail 0
    have h : (rfn w.op).1 = some e := he
    have hdec : times.dec.val = times.val - 1 := GoInt.dec_val_of_pos times (by omega)
    have h0 : times.dec.val = 0 := by omega
    rw [Retry_of_stop cls rfn times interval w e h (Or.inl h0)]
    exact ⟨he.symm, ⟨e, rfl⟩, rfl, by simp⟩
  | succ m ih =>
    obtain ⟨e, he, hl, ht⟩ := hfail 0
    have h : (rfn w.op).1 = some e := he
    have hdec : times.dec.val = times.val - 1 := GoInt.dec_val_of_pos times (by omega)
    have h0 : times.dec.val ≠ 0 := by omega
    rw [Retry_of_again cls rfn times interval w e h h0 hl ht]
    obtain ⟨r1, r2, r3, r4⟩ := ih times.dec
      { op := (rfn w.op).2, calls := w.calls + 1,
        sleeps := w.sleeps ++ [interval], logs := w.logs ++ [(e, times.dec.val)] }
      (fun i => hfail (i + 1)) (by push_cast at htimes ⊢; omega)
    refine ⟨r1, r2, ?_, ?_⟩
    · rw [r3]
      show w.calls + 1 + (m + 1) = w.calls + (m + 1 + 1)
      omega
    · rw [r4]
      simp [List.replicate_succ]

/-- C9, on an operation whose every invocation fails with a different remote
error: with one attempt it is invoked once, never waited for, and its first
error is returned; with three attempts the third error is returned after two
waits. -/
theorem Retry_exhausts_witness :
    (∀ i, ∃ e, outcome alwaysFails (World.start 0).op i = some e ∧ TransientError retryAll e)
    ∧ ((Retry retryAll alwaysFails (GoInt.ofSmall 1 (by decide)) intervalDefault
          (World.start 0)).1 = some (remoteError [])
      ∧ (Retry retryAll alwaysFails (GoInt.ofSmall 1 (by decide)) intervalDefault
          (World.start 0)).2.calls = 1
      ∧ (Retry retryAll alwaysFails (GoInt.ofSmall 1 (by decide)) intervalDefault
          (World.start 0)).2.sleeps = [])
    ∧ ((Retry retryAll alwaysFails timesDefault intervalDefault (World.start 0)).1
          = some (remoteError ['x', 'x'])
      ∧ (Retry retryAll alwaysFails timesDefault intervalDefault (World.start 0)).2.calls = 3
      ∧ (Retry retryAll alwaysFails timesDefault intervalDefault (World.start 0)).2.sleeps
          = [intervalDefault, intervalDefault]) := by
  have hfail : ∀ i, ∃ e, outcome alwaysFails (World.start 0).op i = some e
      ∧ TransientError retryAll e :=
    fun i => ⟨_, rfl, transientError_remoteError _⟩
  have h1 := Retry_exhausts retryAll alwaysFails 1 (GoInt.ofSmall 1 (by decide)) intervalDefault
    (World.start 0) (by decide) rfl hfail
  have h3 := Retry_exhausts retryAll alwaysFails 3 timesDefault intervalDefault
    (World.start 0) (by decide) rfl hfail
  exact ⟨hfail, ⟨h1.1, h1.2.2.1, h1.2.2.2⟩, h3.1, h3.2.2.1, h3.2.2.2⟩

/-- C10: with at least one attempt, `Retry` invokes the operation at least once
and at most `times` times, whatever the operation returns. -/
theorem Retry_calls_bounds {σ : Type} (cls : Classifier) (rfn : RetryFn σ) (times : GoInt)
    (interval : Duration) (w : World σ) (h : 1 ≤ times.val) :
    w.calls + 1 ≤ (Retry cls rfn times interval w).2.calls
    ∧ ((Retry cls rfn times interval w).2.calls : Int) ≤ (w.calls : Int) + times.val := by
  obtain ⟨m, hm⟩ : ∃ m : Nat, times.val = (m : Int) + 1 := ⟨(times.val - 1).toNat, by omega⟩
  clear h
  induction m generalizing times w with
  | zero =>
    have hdec : times.dec.val = times.val - 1 := GoInt.dec_val_of_pos times (by omega)
    have h0 : times.dec.val = 0 := by omega
    cases hr : (rfn w.op).1 with
    | none =>
      rw [Retry_of_success cls rfn times interval w hr]
      simp only
      omega
    | some e =>
      rw [Retry_of_stop cls rfn times interval w e hr (Or.inl h0)]
      simp only
      omega
  | succ m ih =>
    have hdec : times.dec.val = times.val - 1 := GoInt.dec_val_of_pos times (by omega)
    cases hr : (rfn w.op).1 with
    | none =>
      rw [Retry_of_success cls rfn times interval w hr]
      simp only
      omega
    | some e =>
      by_cases hstop : isLocal e = true ∨ isTransient cls e = false
      · rw [Retry_of_stop cls rfn times interval w e hr (Or.inr hstop)]
        simp only
        omega
      · have hl : isLocal e = false := by
          cases hb : isLocal e with
          | false => rfl
          | true => exact absurd (Or.inl hb) hstop
        have ht : isTransient cls e = true := by
          cases hb : isTransient cls e with
          | true => rfl
          | false => exact absurd (Or.inr hb) hstop
        have h0 : times.dec.val ≠ 0 := by push_cast at hm; omega
        rw [Retry_of_again cls rfn times interval w e hr h0 hl ht]
        obtain ⟨r1, r2⟩ := ih times.dec
          { op := (rfn w.op).2, calls := w.calls + 1,
            sleeps := w.sleeps ++ [interval], logs := w.logs ++ [(e, times.dec.val)] }
          (by push_cast at hm; omega)
        refine ⟨?_, ?_⟩
        · have : w.calls + 1 + 1 ≤ _ := r1
          omega
        · have : (_ : Int) ≤ ((w.calls + 1 : Nat) : Int) + times.dec.val := r2
          push_cast at this hm
          omega

/-- C10, with three attempts on an operation that always fails with a remote
error: between one and three invocations. -/
theorem Retry_calls_bounds_witness :
    (1 : Int) ≤ timesDefault.val
    ∧ (World.start 0).calls + 1
        ≤ (Retry retryAll alwaysFails timesDefault intervalDefault (World.start 0)).2.calls
    ∧ ((Retry retryAll alwaysFails timesDefault intervalDefault (World.start 0)).2.calls : Int)
        ≤ ((World.start 0 : World Nat).calls : Int) + timesDefault.val :=
  ⟨by decide, Retry_calls_bounds retryAll alwaysFails timesDefault intervalDefault
    (World.start 0) (by decide)⟩

/-! ## `Retry`: termination and the returned value -/

theorem retryBudget_lt (times : GoInt) : retryBudget times < 2 ^ 64 := by
  unfold retryBudget
  omega

theorem retryBudget_of_pos (times : GoInt) (h : 1 ≤ times.val) :
    (retryBudget times : Int) = times.val - 1 := by
  have h2 := times.hi
  unfold retryBudget
  omega

theorem retryBudget_eq_zero (times : GoInt) : retryBudget times = 0 ↔ times.dec.val = 0 := by
  have h1 := times.lo
  have h2 := times.hi
  simp only [retryBudget, GoInt.dec, wrapInt]
  omega

theorem retryBudget_dec (times : GoInt) (h : times.dec.val ≠ 0) :
    retryBudget times.dec + 1 = retryBudget times := by
  have h1 := times.lo
  have h2 := times.hi
  simp only [retryBudget, GoInt.dec, wrapInt] at h ⊢
  omega

theorem Retry_trace {σ : Type} (cls : Classifier) (rfn : RetryFn σ) (interval : Duration)
    (m : Nat) (times : GoInt) (w : World σ) (hm : retryBudget times = m) :
    ∃ n : Nat, 1 ≤ n ∧ n ≤ m + 1
      ∧ (Retry cls rfn times interval w).2.calls = w.calls + n
      ∧ (Retry cls rfn times interval w).1 = outcome rfn w.op (n - 1)
      ∧ (Retry cls rfn times interval w).2.op = stateAfter rfn w.op n
      ∧ (Retry cls rfn times interval w).2.sleeps = w.sleeps ++ List.replicate (n - 1) interval := by
  induction m generalizing times w with
  | zero =>
    have h0 : times.dec.val = 0 := (retryBudget_eq_zero times).1 hm
    cases hr : (rfn w.op).1 with
    | none =>
      rw [Retry_of_success cls rfn times interval w hr]
      exact ⟨1, le_refl 1, le_refl 1, rfl, hr.symm, rfl, by simp⟩
    | some e =>
      rw [Retry_of_stop cls rfn times interval w e hr (Or.inl h0)]
      exact ⟨1, le_refl 1, le_refl 1, rfl, hr.symm, rfl, by simp⟩
  | succ m ih =>
    cases hr : (rfn w.op).1 with
    | none =>
      rw [Retry_of_success cls rfn times interval w hr]
      exact ⟨1, le_refl 1, by omega, rfl, hr.symm, rfl, by simp⟩
    | some e =>
      by_cases hstop : times.dec.val = 0 ∨ isLocal e = true ∨ isTransient cls e = false
      · rw [Retry_of_stop cls rfn times interval w e hr hstop]
        exact ⟨1, le_refl 1, by omega, rfl, hr.symm, rfl, by simp⟩
      · have h0 : times.dec.val ≠ 0 := fun h => hstop (Or.inl h)
        have hl : isLocal e = false := by
          cases hb : isLocal e with
          | false => rfl
          | true => exact absurd (Or.inr (Or.inl hb)) hstop
        have ht : isTransient cls e = true := by
          cases hb : isTransient cls e with
          | true => rfl
          | false => exact absurd (Or.inr (Or.inr hb)) hstop
        have hbud : retryBudget times.dec = m := by
          have := retryBudget_dec times h0
          omega
        rw [Retry_of_again cls rfn times interval w e hr h0 hl ht]
        obtain ⟨n, hn1, hn2, hc, hv, ho, hs⟩ := ih times.dec
          { op := (rfn w.op).2, calls := w.calls + 1,
            sleeps := w.sleeps ++ [interval], logs := w.logs ++ [(e, times.dec.val)] } hbud
        refine ⟨n + 1, by omega, by omega, ?_, ?_, ?_, ?_⟩
        · rw [hc]
          show w.calls + 1 + n = w.calls + (n + 1)
          omega
        · rw [hv]
          obtain ⟨j, rfl⟩ : ∃ j, n = j + 1 := ⟨n - 1, by omega⟩
          rfl
        · rw [ho]
          rfl
        · rw [hs]
          obtain ⟨j, rfl⟩ : ∃ j, n = j + 1 := ⟨n - 1, by omega⟩
          simp [List.replicate_succ]

theorem Retry_calls_of_all_transient {σ : Type} (cls : Classifier) (rfn : RetryFn σ)
    (interval : Duration) (m : Nat) (times : GoInt) (w : World σ)
    (hm : retryBudget times = m)
    (hfail : ∀ i, ∃ e, outcome rfn w.op i = some e ∧ TransientError cls e) :
    (Retry cls rfn times interval w).2.calls = w.calls + (m + 1) := by
  induction m generalizing times w with
  | zero =>
    obtain ⟨e, he, _, _⟩ := hfail 0
    have h : (rfn w.op).1 = some e := he
    rw [Retry_of_stop cls rfn times interval w e h (Or.inl ((retryBudget_eq_zero times).1 hm))]
  | succ m ih =>
    obtain ⟨e, he, hl, ht⟩ := hfail 0
    have h : (rfn w.op).1 = some e := he
    have h0 : times.dec.val ≠ 0 := by
      intro hz
      have := (retryBudget_eq_zero times).2 hz
      omega
    have hbud : retryBudget times.dec = m := by
      have := retryBudget_dec times h0
      omega
    rw [Retry_of_again cls rfn times interval w e h h0 hl ht]
    rw [ih times.dec _ hbud (fun i => hfail (i + 1))]
    show w.calls + 1 + (m + 1) = w.calls + (m + 1 + 1)
    omega

theorem Retry_zero_times_calls (interval : Duration) :
    (Retry retryAll alwaysFails (GoInt.ofSmall 0 (by decide)) interval (World.start 0)).2.calls
      = 2 ^ 64 := by
  have hb : retryBudget (GoInt.ofSmall 0 (by decide)) = 2 ^ 64 - 1 := by
    simp only [retryBudget, GoInt.ofSmall]
    omega
  rw [Retry_calls_of_all_transient retryAll alwaysFails interval _ _ _ hb
    (fun i => ⟨_, rfl, transientError_remoteError _⟩)]
  simp [World.start]

/-- C12: with at least one attempt, the value `Retry` returns is the value
returned by the last invocation of the operation it made: it is success exactly
when that invocation succeeded, and a returned error is that invocation's
error itself. -/
theorem Retry_returns_last {σ : Type} (cls : Classifier) (rfn : RetryFn σ) (times : GoInt)
    (interval : Duration) (w : World σ) (h : 1 ≤ times.val) :
    ∃ n : Nat, 1 ≤ n
      ∧ (Retry cls rfn times interval w).2.calls = w.calls + n
      ∧ (Retry cls rfn times interval w).1 = outcome rfn w.op (n - 1)
      ∧ ((Retry cls rfn times interval w).1 = none ↔ outcome rfn w.op (n - 1) = none)
      ∧ (∀ e, (Retry cls rfn times interval w).1 = some e ↔ outcome rfn w.op (n - 1) = some e) := by
  obtain ⟨n, h1, _, hc, hv, _, _⟩ := Retry_trace cls rfn interval _ times w rfl
  exact ⟨n, h1, hc, hv, by rw [hv], fun e => by rw [hv]⟩

/-- C12, with three attempts on an operation that fails twice and then
succeeds, and on one that always fails: the returned value is the outcome of
the last invocation made. -/
theorem Retry_returns_last_witness :
    (1 : Int) ≤ timesDefault.val
    ∧ (∃ n : Nat, 1 ≤ n
        ∧ (Retry retryAll (failsThenSucceeds 2) timesDefault intervalDefault
            (World.start 0)).2.calls = (World.start 0 : World Nat).calls + n
        ∧ (Retry retryAll (failsThenSucceeds 2) timesDefault intervalDefault
            (World.start 0)).1 = outcome (failsThenSucceeds 2) (World.start 0).op (n - 1))
    ∧ (∃ n : Nat, 1 ≤ n
        ∧ (Retry retryAll alwaysFails timesDefault intervalDefault
            (World.start 0)).2.calls = (World.start 0 : World Nat).calls + n
        ∧ (Retry retryAll alwaysFails timesDefault intervalDefault
            (World.start 0)).1 = outcome alwaysFails (World.start 0).op (n - 1)) := by
  obtain ⟨n, h1, hc, hv, _⟩ := Retry_returns_last retryAll (failsThenSucceeds 2) timesDefault
    intervalDefault (World.start 0) (by decide)
  obtain ⟨n', h1', hc', hv', _⟩ := Retry_returns_last retryAll alwaysFails timesDefault
    intervalDefault (World.start 0) (by decide)
  exact ⟨by decide, ⟨n, h1, hc, hv⟩, ⟨n', h1', hc', hv'⟩⟩

/-- C13: `RetryDefault(operation)` is `Retry(operation, 3, 30s)`: same returned
value and same world afterwards; so it makes at most three invocations and at
most two waits, each of thirty seconds. -/
theorem RetryDefault_eq_Retry {σ : Type} (cls : Classifier) (rfn : RetryFn σ) (w : World σ) :
    RetryDefault cls rfn w = retryThreeTimesThirtySeconds cls rfn w
    ∧ (RetryDefault cls rfn w).2.calls ≤ w.calls + 3
    ∧ ∃ j : Nat, j ≤ 2
        ∧ (RetryDefault cls rfn w).2.sleeps = w.sleeps ++ List.replicate j 30000000000 := by
  have hb : retryBudget timesDefault = 2 := by
    simp only [retryBudget, timesDefault]
    omega
  obtain ⟨n, h1, h2, hc, _, _, hs⟩ := Retry_trace cls rfn intervalDefault 2 timesDefault w hb
  refine ⟨rfl, ?_, ⟨n - 1, by omega, hs⟩⟩
  show (Retry cls rfn timesDefault intervalDefault w).2.calls ≤ w.calls + 3
  rw [hc]
  omega

/-! ## `Validate` and `Retry` together; errors `Retry` does not classify -/

theorem validateLoop_eq_some (E : GoError) (ts : List GoString) (err : GoError)
    (h : validateLoop E ts = some err) :
    ∃ pre t post, ts = pre ++ t :: post ∧ (∀ u ∈ pre, '.' ∈ u) ∧ '.' ∉ t
      ∧ err = .withStack (.withMessage E ⟨validateFormat, [t]⟩) := by
  induction ts with
  | nil => simp [validateLoop] at h
  | cons t ts ih =>
    by_cases ht : '.' ∈ t
    · have hc : Contains t '.' = true := (Contains_iff t '.').2 ht
      simp only [validateLoop, hc, Bool.not_true, Bool.false_eq_true, if_false] at h
      obtain ⟨pre, u, post, hts, hpre, hu, herr⟩ := ih h
      refine ⟨t :: pre, u, post, by simp [hts], ?_, hu, herr⟩
      intro x hx
      rcases List.mem_cons.1 hx with e | e
      · rw [e]
        exact ht
      · exact hpre x e
    · have hc : Contains t '.' = false := by
        cases hb : Contains t '.' with
        | false => rfl
        | true => exact absurd ((Contains_iff t '.').1 hb) ht
      simp only [validateLoop, hc, Bool.not_false, if_true, Wrapf] at h
      exact ⟨[], t, ts, rfl, by simp, ht, (Option.some.inj h).symm⟩

theorem Validate_eq_some (E : GoError) (f : Filter) (err : GoError)
    (h : f.Validate E = some err) :
    ∃ pre t post, f.Targets = pre ++ t :: post ∧ (∀ u ∈ pre, '.' ∈ u) ∧ '.' ∉ t
      ∧ err = .withStack (.withMessage E ⟨validateFormat, [t]⟩) := by
  unfold Filter.Validate at h
  by_cases hT : f.Targets.length ≠ 0
  · rw [if_pos hT] at h
    exact validateLoop_eq_some E f.Targets err h
  · rw [if_neg hT] at h
    exact absurd h (by simp)

/-- C15: the error of a failing `Validate` has concrete type `*errors.withStack`,
which `Retry` takes for local: an operation whose first invocation returns it
gets it back after one invocation and no wait, for every value of `times`,
every interval and every classification by the remote library. -/
theorem Retry_validation_error {σ : Type} (E : GoError) (f : Filter) (err : GoError)
    (cls : Classifier) (rfn : RetryFn σ) (times : GoInt) (interval : Duration) (w : World σ)
    (hv : f.Validate E = some err) (hop : outcome rfn w.op 0 = some err) :
    typeName err = "*errors.withStack".toList
    ∧ isLocal err = true
    ∧ (Retry cls rfn times interval w).1 = some err
    ∧ (Retry cls rfn times interval w).2.calls = w.calls + 1
    ∧ (Retry cls rfn times interval w).2.sleeps = w.sleeps := by
  obtain ⟨pre, t, post, _, _, _, herr⟩ := Validate_eq_some E f err hv
  have hty : typeName err = "*errors.withStack".toList := by
    rw [herr]
    rfl
  have hloc : isLocal err = true :=
    isLocal_of_typeName err (Or.inr (Or.inr (Or.inl hty)))
  have h : (rfn w.op).1 = some err := hop
  rw [Retry_of_stop cls rfn times interval w err h (Or.inr (Or.inl hloc))]
  exact ⟨hty, hloc, rfl, rfl, rfl⟩

/-- C15, on the targets `[badtarget]` and an operation that returns the error
of `Validate` each time, with three attempts and a classifier that calls every
error retryable: one invocation, no wait. -/
theorem Retry_validation_error_witness :
    (filterWithTargets ["badtarget".toList]).Validate sentinelError
        = some (.withStack (.withMessage sentinelError ⟨validateFormat, ["badtarget".toList]⟩))
    ∧ (Retry retryAll
        (fun n : Nat => ((filterWithTargets ["badtarget".toList]).Validate sentinelError, n + 1))
        timesDefault intervalDefault (World.start 0)).1
        = some (.withStack (.withMessage sentinelError ⟨validateFormat, ["badtarget".toList]⟩))
    ∧ (Retry retryAll
        (fun n : Nat => ((filterWithTargets ["badtarget".toList]).Validate sentinelError, n + 1))
        timesDefault intervalDefault (World.start 0)).2.calls = 1
    ∧ (Retry retryAll
        (fun n : Nat => ((filterWithTargets ["badtarget".toList]).Validate sentinelError, n + 1))
        timesDefault intervalDefault (World.start 0)).2.sleeps = [] := by
  have hv : (filterWithTargets ["badtarget".toList]).Validate sentinelError
      = some (.withStack (.withMessage sentinelError ⟨validateFormat, ["badtarget".toList]⟩)) := by
    decide
  have h := Retry_validation_error sentinelError (filterWithTargets ["badtarget".toList]) _
    retryAll
    (fun n : Nat => ((filterWithTargets ["badtarget".toList]).Validate sentinelError, n + 1))
    timesDefault intervalDefault (World.start 0) hv hv
  exact ⟨hv, h.2.2.1, h.2.2.2.1, h.2.2.2.2⟩

/-- C20: when the first invocation fails with an error that is not of a local
type and that none of the three predicates of the remote library reports,
`Retry` returns that error after one invocation, without waiting, for every
value of `times` and every interval. -/
theorem Retry_unclassified_immediate {σ : Type} (cls : Classifier) (rfn : RetryFn σ)
    (times : GoInt) (interval : Duration) (w : World σ) (e : GoError)
    (hfirst : outcome rfn w.op 0 = some e)
    (hnotlocal : typeName e ≠ "*errors.errorString".toList
      ∧ typeName e ≠ "*errors.fundamental".toList
      ∧ typeName e ≠ "*errors.withStack".toList
      ∧ typeName e ≠ "*errors.withMessage".toList)
    (h1 : cls.IsErrorRetryable e = false) (h2 : cls.IsErrorThrottle e = false)
    (h3 : cls.IsErrorExpiredCreds e = false) :
    (Retry cls rfn times interval w).1 = some e
    ∧ (Retry cls rfn times interval w).2.calls = w.calls + 1
    ∧ (Retry cls rfn times interval w).2.sleeps = w.sleeps
    ∧ (Retry cls rfn times interval w).2.logs = w.logs := by
  have h : (rfn w.op).1 = some e := hfirst
  have ht : isTransient cls e = false := by simp [isTransient, h1, h2, h3]
  rw [Retry_of_stop cls rfn times interval w e h (Or.inr (Or.inr ht))]
  exact ⟨rfl, rfl, rfl, rfl⟩

/-- C20, with three attempts on an operation that always fails with a remote
error and a classifier that reports nothing: one invocation, no wait. -/
theorem Retry_unclassified_immediate_witness :
    outcome alwaysFails (World.start 0).op 0 = some (remoteError [])
    ∧ (Retry retryNone alwaysFails timesDefault intervalDefault (World.start 0)).1
        = some (remoteError [])
    ∧ (Retry retryNone alwaysFails timesDefault intervalDefault (World.start 0)).2.calls = 1
    ∧ (Retry retryNone alwaysFails timesDefault intervalDefault (World.start 0)).2.sleeps = [] := by
  have h := Retry_unclassified_immediate retryNone alwaysFails timesDefault intervalDefault
    (World.start 0) (remoteError []) rfl (by decide) rfl rfl rfl
  exact ⟨rfl, h.1, h.2.1, h.2.2.1⟩

/-! ## `Validate`: the error, and what success guarantees -/

/-- C14: when `Validate` fails, its error is the sentinel
`ErrFilterTargetsInvalid` wrapped with a message and a stack; the message is
made from the format naming the expected form `aws_instance.ID` and from one
operand, the first target, in order, that contains no `.`. -/
theorem Validate_error_names_first (E : GoError) (f : Filter) (err : GoError)
    (h : f.Validate E = some err) :
    ∃ pre t post, f.Targets = pre ++ t :: post ∧ (∀ u ∈ pre, '.' ∈ u) ∧ '.' ∉ t
      ∧ err = .withStack (.withMessage E
          ⟨"the Target %q has an invalid format. The expected format is 'aws_instance.ID'".toList,
           [t]⟩) :=
  Validate_eq_some E f err h

/-- C14, on the targets `[ok.1, bad, worse]`: the error names `bad`, the first
target without a separator, and not `worse`. -/
theorem Validate_error_names_first_witness :
    (filterWithTargets ["ok.1".toList, "bad".toList, "worse".toList]).Validate sentinelError
      = some (.withStack (.withMessage sentinelError ⟨validateFormat, ["bad".toList]⟩))
    ∧ ∃ pre t post,
        (filterWithTargets ["ok.1".toList, "bad".toList, "worse".toList]).Targets
          = pre ++ t :: post
        ∧ (∀ u ∈ pre, '.' ∈ u) ∧ '.' ∉ t
        ∧ GoError.withStack (.withMessage sentinelError ⟨validateFormat, ["bad".toList]⟩)
          = .withStack (.withMessage sentinelError
            ⟨"the Target %q has an invalid format. The expected format is 'aws_instance.ID'".toList,
             [t]⟩) :=
  ⟨by decide,
   Validate_error_names_first sentinelError
     (filterWithTargets ["ok.1".toList, "bad".toList, "worse".toList]) _ (by decide)⟩

/-- C16, refuted as stated: `Validate` accepts the target `.123`, whose text
before the first `.` is empty. -/
theorem Validate_accepts_empty_type :
    ¬ (∀ (E : GoError) (f : Filter), f.Validate E = none →
        ∀ t ∈ f.Targets, '.' ∈ t ∧ targetType t ≠ []) := by
  intro hall
  have h := hall sentinelError (filterWithTargets [".123".toList]) (by decide)
    ".123".toList (by decide)
  exact h.2 (by decide)

theorem Validate_eq_none (E : GoError) (f : Filter) (h : f.Validate E = none) :
    ∀ t ∈ f.Targets, '.' ∈ t := by
  intro t ht
  by_contra hdot
  have hsome : (f.Validate E).isSome = true := by
    by_cases hT : f.Targets = []
    · rw [hT] at ht
      simp at ht
    · simp only [Filter.Validate, List.length_eq_zero, ne_eq, hT, not_false_eq_true, if_true]
      exact (validateLoop_isSome E f.Targets).2 ⟨t, ht, hdot⟩
  rw [h] at hsome
  simp at hsome

/-- C16, amended: when `Validate` succeeds, every target contains a `.`, and
its first `.` splits it into the text before and the text after; the text
before may be empty. -/
theorem Validate_success_separator (E : GoError) (f : Filter) (h : f.Validate E = none) :
    ∀ t ∈ f.Targets, '.' ∈ t ∧ targetType t ++ ['.'] ++ targetID t = t
      ∧ '.' ∉ targetType t := by
  intro t ht
  have hdot := Validate_eq_none E f h t ht
  refine ⟨hdot, ?_, not_mem_targetType t⟩
  simpa using targetType_append_targetID t hdot

/-- C16, amended, on the targets `[aws_instance.123, .123]`: both are accepted
and both split at their first `.`. -/
theorem Validate_success_separator_witness :
    (filterWithTargets ["aws_instance.123".toList, ".123".toList]).Validate sentinelError = none
    ∧ ∀ t ∈ (filterWithTargets ["aws_instance.123".toList, ".123".toList]).Targets,
        '.' ∈ t ∧ targetType t ++ ['.'] ++ targetID t = t ∧ '.' ∉ targetType t :=
  ⟨by decide,
   Validate_success_separator sentinelError
     (filterWithTargets ["aws_instance.123".toList, ".123".toList]) (by decide)⟩

/-- C19: when `Validate` returns no error, `SplitN` cuts every target into
exactly two parts, so `split[0]` and `split[1]` exist, and
`TargetsTypesWithIDs` returns a map. -/
theorem Validate_guards_TargetsTypesWithIDs (E : GoError) (f : Filter)
    (h : f.Validate E = none) :
    (∀ t ∈ f.Targets, (SplitN t '.' 2).length = 2
        ∧ (SplitN t '.' 2)[0]? = some (targetType t)
        ∧ (SplitN t '.' 2)[1]? = some (targetID t))
    ∧ ∃ res, f.TargetsTypesWithIDs = some res := by
  have hall := Validate_eq_none E f h
  refine ⟨fun t ht => ?_, ?_⟩
  · rw [SplitN_two_of_mem t (hall t ht)]
    exact ⟨rfl, rfl, rfl⟩
  · obtain ⟨st, hres, _⟩ := TargetsTypesWithIDs_inv f hall
    exact ⟨st.2, hres⟩

/-- C19, on the targets `[aws_instance.123, .123]`: `Validate` accepts them and
`TargetsTypesWithIDs` returns `aws_instance ↦ [123]` and the empty type
`↦ [123]`. -/
theorem Validate_guards_TargetsTypesWithIDs_witness :
    (filterWithTargets ["aws_instance.123".toList, ".123".toList]).Validate sentinelError = none
    ∧ (filterWithTargets ["aws_instance.123".toList, ".123".toList]).TargetsTypesWithIDs
        = some [("aws_instance".toList, ["123".toList]), ([], ["123".toList])]
    ∧ ∃ res, (filterWithTargets ["aws_instance.123".toList, ".123".toList]).TargetsTypesWithIDs
        = some res :=
  ⟨by decide, by decide,
   (Validate_guards_TargetsTypesWithIDs sentinelError
     (filterWithTargets ["aws_instance.123".toList, ".123".toList]) (by decide)).2⟩

/-! ## The caches -/

theorem IsExcluded_frame (f : Filter) (v : List GoString) :
    (f.IsExcluded v).2.Tags = f.Tags ∧ (f.IsExcluded v).2.Include = f.Include
    ∧ (f.IsExcluded v).2.Exclude = f.Exclude ∧ (f.IsExcluded v).2.Targets = f.Targets
    ∧ (f.IsExcluded v).2.includeMap = f.includeMap := by
  unfold Filter.IsExcluded
  by_cases hE : f.Exclude.length = 0
  · simp [hE]
  · by_cases hc : f.excludeMap = none <;> simp [hE, hc, Filter.calculateExcludeMap]

theorem IsIncluded_frame (f : Filter) (v : List GoString) :
    (f.IsIncluded v).2.Tags = f.Tags ∧ (f.IsIncluded v).2.Include = f.Include
    ∧ (f.IsIncluded v).2.Exclude = f.Exclude ∧ (f.IsIncluded v).2.Targets = f.Targets
    ∧ (f.IsIncluded v).2.excludeMap = f.excludeMap := by
  unfold Filter.IsIncluded
  by_cases hI : f.Include.length = 0
  · simp [hI]
  · by_cases hc : f.includeMap = none <;> simp [hI, hc, Filter.calculateIncludeMap]

theorem IsExcluded_of_built (f : Filter) (v : List GoString) (h : f.excludeMap ≠ none) :
    f.IsExcluded v =
      (if f.Exclude.length = 0 then false else v.all (fun res => hasKey f.excludeMap res), f) := by
  unfold Filter.IsExcluded
  by_cases hE : f.Exclude.length = 0 <;> simp [hE, h]

theorem IsIncluded_of_built (f : Filter) (v : List GoString) (h : f.includeMap ≠ none) :
    f.IsIncluded v =
      (if f.Include.length = 0 then true else v.all (fun res => hasKey f.includeMap res), f) := by
  unfold Filter.IsIncluded
  by_cases hI : f.Include.length = 0 <;> simp [hI, h]

theorem IsExcluded_of_unbuilt (f : Filter) (v : List GoString) (h : f.excludeMap = none)
    (hE : f.Exclude ≠ []) :
    (f.IsExcluded v).2.excludeMap = some (fillSet [] f.Exclude) := by
  simp [Filter.IsExcluded, hE, h, Filter.calculateExcludeMap]

theorem IsIncluded_of_unbuilt (f : Filter) (v : List GoString) (h : f.includeMap = none)
    (hI : f.Include ≠ []) :
    (f.IsIncluded v).2.includeMap = some (fillSet [] f.Include) := by
  simp [Filter.IsIncluded, hI, h, Filter.calculateIncludeMap]

theorem IsExcluded_twice (f : Filter) (v v' : List GoString) :
    ((f.IsExcluded v).2.IsExcluded v').2 = (f.IsExcluded v).2
    ∧ ((f.IsExcluded v).2.IsExcluded v').1 = (f.IsExcluded v').1 := by
  by_cases hE : f.Exclude = []
  · simp [Filter.IsExcluded, hE]
  · by_cases hc : f.excludeMap = none
    · simp [Filter.IsExcluded, hE, hc, Filter.calculateExcludeMap]
    · simp [Filter.IsExcluded, hE, hc]

theorem IsIncluded_twice (f : Filter) (v v' : List GoString) :
    ((f.IsIncluded v).2.IsIncluded v').2 = (f.IsIncluded v).2
    ∧ ((f.IsIncluded v).2.IsIncluded v').1 = (f.IsIncluded v').1 := by
  by_cases hI : f.Include = []
  · simp [Filter.IsIncluded, hI]
  · by_cases hc : f.includeMap = none
    · simp [Filter.IsIncluded, hI, hc, Filter.calculateIncludeMap]
    · simp [Filter.IsIncluded, hI, hc]

/-- C17, refuted as stated: on a filter queried with `Exclude = [a]` and then
given `Exclude = [b]`, a call with the non-empty `Exclude` leaves a cache that
does not hold `b`. -/
theorem exclude_cache_not_rebuilt :
    ¬ (∀ (f : Filter) (v : List GoString), f.Exclude ≠ [] →
        ∀ k, hasKey (f.IsExcluded v).2.excludeMap k = true ↔ k ∈ f.Exclude) := by
  intro hall
  have h := (hall filterExcludeStale [] (by decide) "b".toList).2 (by decide)
  exact absurd h (by decide)

/-- C17, amended: a call to `IsExcluded` leaves `Tags`, `Include`, `Exclude`,
`Targets` and the include cache unchanged, and symmetrically for `IsIncluded`;
after a call with non-empty `Exclude` on a filter whose exclude cache was not
built, or held exactly the elements of `Exclude`, the cache holds exactly the
elements of `Exclude` (likewise for `Include`); a cache that is built is left
unchanged by a call, a second call leaves the cache as the first one left it,
and repeating a query gives the same answer. -/
theorem caches_frame_and_once (f : Filter) (v v' : List GoString) :
    ((f.IsExcluded v).2.Tags = f.Tags ∧ (f.IsExcluded v).2.Include = f.Include
      ∧ (f.IsExcluded v).2.Exclude = f.Exclude ∧ (f.IsExcluded v).2.Targets = f.Targets
      ∧ (f.IsExcluded v).2.includeMap = f.includeMap)
    ∧ ((f.IsIncluded v).2.Tags = f.Tags ∧ (f.IsIncluded v).2.Include = f.Include
      ∧ (f.IsIncluded v).2.Exclude = f.Exclude ∧ (f.IsIncluded v).2.Targets = f.Targets
      ∧ (f.IsIncluded v).2.excludeMap = f.excludeMap)
    ∧ (f.Exclude ≠ [] →
        (f.excludeMap = none ∨ ∀ k, hasKey f.excludeMap k = true ↔ k ∈ f.Exclude) →
        ∀ k, hasKey (f.IsExcluded v).2.excludeMap k = true ↔ k ∈ f.Exclude)
    ∧ (f.Include ≠ [] →
        (f.includeMap = none ∨ ∀ k, hasKey f.includeMap k = true ↔ k ∈ f.Include) →
        ∀ k, hasKey (f.IsIncluded v).2.includeMap k = true ↔ k ∈ f.Include)
    ∧ (f.excludeMap ≠ none → (f.IsExcluded v).2.excludeMap = f.excludeMap)
    ∧ (f.includeMap ≠ none → (f.IsIncluded v).2.includeMap = f.includeMap)
    ∧ ((f.IsExcluded v).2.IsExcluded v').2.excludeMap = (f.IsExcluded v).2.excludeMap
    ∧ ((f.IsIncluded v).2.IsIncluded v').2.includeMap = (f.IsIncluded v).2.includeMap
    ∧ ((f.IsExcluded v).2.IsExcluded v).1 = (f.IsExcluded v).1
    ∧ ((f.IsIncluded v).2.IsIncluded v).1 = (f.IsIncluded v).1 := by
  refine ⟨IsExcluded_frame f v, IsIncluded_frame f v, ?_, ?_, ?_, ?_, ?_, ?_,
    (IsExcluded_twice f v v).2, (IsIncluded_twice f v v).2⟩
  · intro hE hc k
    by_cases hn : f.excludeMap = none
    · rw [IsExcluded_of_unbuilt f v hn hE]
      exact hasKey_fillSet f.Exclude k
    · rw [IsExcluded_of_built f v hn]
      rcases hc with hc | hc
      · exact absurd hc hn
      · exact hc k
  · intro hI hc k
    by_cases hn : f.includeMap = none
    · rw [IsIncluded_of_unbuilt f v hn hI]
      exact hasKey_fillSet f.Include k
    · rw [IsIncluded_of_built f v hn]
      rcases hc with hc | hc
      · exact absurd hc hn
      · exact hc k
  · intro hn
    rw [IsExcluded_of_built f v hn]
  · intro hn
    rw [IsIncluded_of_built f v hn]
  · rw [(IsExcluded_twice f v v').1]
  · rw [(IsIncluded_twice f v v').1]

/-- C17, amended, on the fresh filter with `Exclude = [a]`: after the query
`IsExcluded(a)` the cache holds exactly `a`, the other fields are as before,
and asking again gives the same answer. -/
theorem caches_frame_and_once_witness :
    filterExcludeA.Exclude ≠ [] ∧ filterExcludeA.excludeMap = none
    ∧ (∀ k, hasKey (filterExcludeA.IsExcluded ["a".toList]).2.excludeMap k = true
        ↔ k ∈ filterExcludeA.Exclude)
    ∧ (filterExcludeA.IsExcluded ["a".toList]).2.includeMap = filterExcludeA.includeMap
    ∧ ((filterExcludeA.IsExcluded ["a".toList]).2.IsExcluded ["a".toList]).1
        = (filterExcludeA.IsExcluded ["a".toList]).1 := by
  have h := caches_frame_and_once filterExcludeA ["a".toList] ["a".toList]
  exact ⟨by decide, rfl, h.2.2.1 (by decide) (Or.inl rfl), h.1.2.2.2.2, h.2.2.2.2.2.2.2.2.1⟩

theorem apply_excludeMap (f : Filter) (op : FilterOp) (m : GoMap Unit)
    (h : f.excludeMap = some m) : (f.apply op).excludeMap = some m := by
  have hn : f.excludeMap ≠ none := by simp [h]
  cases op with
  | assignExclude e => exact h
  | assignInclude i => exact h
  | queryExcluded v =>
    show (f.IsExcluded v).2.excludeMap = some m
    rw [IsExcluded_of_built f v hn]
    exact h
  | queryIncluded v =>
    show (f.IsIncluded v).2.excludeMap = some m
    rw [(IsIncluded_frame f v).2.2.2.2]
    exact h

theorem apply_includeMap (f : Filter) (op : FilterOp) (m : GoMap Unit)
    (h : f.includeMap = some m) : (f.apply op).includeMap = some m := by
  have hn : f.includeMap ≠ none := by simp [h]
  cases op with
  | assignExclude e => exact h
  | assignInclude i => exact h
  | queryExcluded v =>
    show (f.IsExcluded v).2.includeMap = some m
    rw [(IsExcluded_frame f v).2.2.2.2]
    exact h
  | queryIncluded v =>
    show (f.IsIncluded v).2.includeMap = some m
    rw [IsIncluded_of_built f v hn]
    exact h

theorem run_excludeMap (f : Filter) (ops : List FilterOp) (m : GoMap Unit)
    (h : f.excludeMap = some m) : (f.run ops).excludeMap = some m := by
  induction ops generalizing f with
  | nil => exact h
  | cons op ops ih => exact ih (f.apply op) (apply_excludeMap f op m h)

theorem run_includeMap (f : Filter) (ops : List FilterOp) (m : GoMap Unit)
    (h : f.includeMap = some m) : (f.run ops).includeMap = some m := by
  induction ops generalizing f with
  | nil => exact h
  | cons op ops ih => exact ih (f.apply op) (apply_includeMap f op m h)

/-- C18: once `IsExcluded` has built the cache of a filter whose `Exclude` list
was `E0`, non-empty, then after any later assignments to `Exclude` and
`Include` and any later queries, as long as `Exclude` is non-empty at the time
of asking, `IsExcluded` answers true exactly when every identifier is an
element of `E0`; and the same for `IsIncluded` and `Include`. -/
theorem cache_reflects_first_build (f0 : Filter) (v0 : List GoString) (ops : List FilterOp)
    (v : List GoString) :
    (f0.excludeMap = none → f0.Exclude ≠ [] →
      ((f0.IsExcluded v0).2.run ops).Exclude ≠ [] →
      ((((f0.IsExcluded v0).2.run ops).IsExcluded v).1 = true ↔ ∀ x ∈ v, x ∈ f0.Exclude))
    ∧ (f0.includeMap = none → f0.Include ≠ [] →
      ((f0.IsIncluded v0).2.run ops).Include ≠ [] →
      ((((f0.IsIncluded v0).2.run ops).IsIncluded v).1 = true ↔ ∀ x ∈ v, x ∈ f0.Include)) := by
  constructor
  · intro hn hE0 hE
    have hc := run_excludeMap _ ops _ (IsExcluded_of_unbuilt f0 v0 hn hE0)
    have hb : ((f0.IsExcluded v0).2.run ops).excludeMap ≠ none := by simp [hc]
    rw [IsExcluded_of_built _ v hb, hc]
    simp [hE, hasKey_fillSet]
  · intro hn hI0 hI
    have hc := run_includeMap _ ops _ (IsIncluded_of_unbuilt f0 v0 hn hI0)
    have hb : ((f0.IsIncluded v0).2.run ops).includeMap ≠ none := by simp [hc]
    rw [IsIncluded_of_built _ v hb, hc]
    simp [hI, hasKey_fillSet]

/-- C18, on the filter queried with `Exclude = [a]` and then given
`Exclude = [b]`: `IsExcluded(a)` is true and `IsExcluded(b)` is false; likewise
for `Include`. -/
theorem cache_reflects_first_build_witness :
    (filterExcludeA.IsExcluded []).2.run [.assignExclude ["b".toList]] = filterExcludeStale
    ∧ filterExcludeStale.Exclude = ["b".toList]
    ∧ (filterExcludeStale.IsExcluded ["a".toList]).1 = true
    ∧ (filterExcludeStale.IsExcluded ["b".toList]).1 = false
    ∧ (filterIncludeStale.IsIncluded ["a".toList]).1 = true
    ∧ (filterIncludeStale.IsIncluded ["b".toList]).1 = false := by
  have hEa := (cache_reflects_first_build filterExcludeA [] [.assignExclude ["b".toList]]
    ["a".toList]).1 rfl (by decide) (by decide)
  have hEb := (cache_reflects_first_build filterExcludeA [] [.assignExclude ["b".toList]]
    ["b".toList]).1 rfl (by decide) (by decide)
  have hIa := (cache_reflects_first_build filterIncludeA [] [.assignInclude ["b".toList]]
    ["a".toList]).2 rfl (by decide) (by decide)
  have hIb := (cache_reflects_first_build filterIncludeA [] [.assignInclude ["b".toList]]
    ["b".toList]).2 rfl (by decide) (by decide)
  refine ⟨rfl, rfl, hEa.2 (by decide), ?_, hIa.2 (by decide), ?_⟩
  · exact Bool.eq_false_iff.mpr (fun ht => absurd (hEb.1 ht) (by decide))
  · exact Bool.eq_false_iff.mpr (fun ht => absurd (hIb.1 ht) (by decide))

/-! ## `Retry` on a bounded call stack -/

theorem RetryOnStack_of_success {σ : Type} (cls : Classifier) (rfn : RetryFn σ) (room : Nat)
    (times : GoInt) (interval : Duration) (w : World σ) (h : (rfn w.op).1 = none) :
    RetryOnStack cls rfn room times interval w =
      some (none, { w with op := (rfn w.op).2, calls := w.calls + 1 }) := by
  unfold RetryOnStack
  simp [h]

theorem RetryOnStack_of_stop {σ : Type} (cls : Classifier) (rfn : RetryFn σ) (room : Nat)
    (times : GoInt) (interval : Duration) (w : World σ) (e : GoError)
    (h : (rfn w.op).1 = some e)
    (hstop : times.dec.val = 0 ∨ isLocal e = true ∨ isTransient cls e = false) :
    RetryOnStack cls rfn room times interval w =
      some (some e, { w with op := (rfn w.op).2, calls := w.calls + 1 }) := by
  unfold RetryOnStack
  simp only [h]
  by_cases h0 : times.dec.val = 0
  · simp [h0]
  · by_cases hl : isLocal e = true
    · simp [h0, hl]
    · rcases hstop with h1 | h1 | h1
      · exact absurd h1 h0
      · exact absurd h1 hl
      · simp [h0, hl, h1]

theorem RetryOnStack_of_again_zero {σ : Type} (cls : Classifier) (rfn : RetryFn σ)
    (times : GoInt) (interval : Duration) (w : World σ) (e : GoError)
    (h : (rfn w.op).1 = some e)
    (h0 : times.dec.val ≠ 0) (hl : isLocal e = false) (ht : isTransient cls e = true) :
    RetryOnStack cls rfn 0 times interval w = none := by
  unfold RetryOnStack
  simp [h, h0, hl, ht]

theorem RetryOnStack_of_again_succ {σ : Type} (cls : Classifier) (rfn : RetryFn σ) (room : Nat)
    (times : GoInt) (interval : Duration) (w : World σ) (e : GoError)
    (h : (rfn w.op).1 = some e)
    (h0 : times.dec.val ≠ 0) (hl : isLocal e = false) (ht : isTransient cls e = true) :
    RetryOnStack cls rfn (room + 1) times interval w =
      RetryOnStack cls rfn room times.dec interval
        { op := (rfn w.op).2, calls := w.calls + 1,
          sleeps := w.sleeps ++ [interval], logs := w.logs ++ [(e, times.dec.val)] } := by
  rw [RetryOnStack]
  simp [h, h0, hl, ht]

theorem RetryOnStack_cases {σ : Type} (cls : Classifier) (rfn : RetryFn σ)
    (times : GoInt) (w : World σ) :
    (rfn w.op).1 = none
    ∨ (∃ e, (rfn w.op).1 = some e
        ∧ (times.dec.val = 0 ∨ isLocal e = true ∨ isTransient cls e = false))
    ∨ (∃ e, (rfn w.op).1 = some e
        ∧ times.dec.val ≠ 0 ∧ isLocal e = false ∧ isTransient cls e = true) := by
  cases hr : (rfn w.op).1 with
  | none => exact Or.inl rfl
  | some e =>
    by_cases h0 : times.dec.val = 0
    · exact Or.inr (Or.inl ⟨e, rfl, Or.inl h0⟩)
    · cases hl : isLocal e with
      | true => exact Or.inr (Or.inl ⟨e, rfl, Or.inr (Or.inl hl)⟩)
      | false =>
        cases ht : isTransient cls e with
        | false => exact Or.inr (Or.inl ⟨e, rfl, Or.inr (Or.inr ht)⟩)
        | true => exact Or.inr (Or.inr ⟨e, rfl, h0, hl, ht⟩)

theorem RetryOnStack_eq_Retry_of_some {σ : Type} (cls : Classifier) (rfn : RetryFn σ)
    (interval : Duration) (room : Nat) (times : GoInt) (w : World σ)
    (r : Option GoError × World σ)
    (h : RetryOnStack cls rfn room times interval w = some r) :
    r = Retry cls rfn times interval w := by
  induction room generalizing times w with
  | zero =>
    rcases RetryOnStack_cases cls rfn times w with hr | ⟨e, hr, hstop⟩ | ⟨e, hr, h0, hl, ht⟩
    · rw [RetryOnStack_of_success cls rfn 0 times interval w hr] at h
      rw [Retry_of_success cls rfn times interval w hr]
      exact (Option.some.inj h).symm
    · rw [RetryOnStack_of_stop cls rfn 0 times interval w e hr hstop] at h
      rw [Retry_of_stop cls rfn times interval w e hr hstop]
      exact (Option.some.inj h).symm
    · rw [RetryOnStack_of_again_zero cls rfn times interval w e hr h0 hl ht] at h
      exact absurd h (by simp)
  | succ room ih =>
    rcases RetryOnStack_cases cls rfn times w with hr | ⟨e, hr, hstop⟩ | ⟨e, hr, h0, hl, ht⟩
    · rw [RetryOnStack_of_success cls rfn _ times interval w hr] at h
      rw [Retry_of_success cls rfn times interval w hr]
      exact (Option.some.inj h).symm
    · rw [RetryOnStack_of_stop cls rfn _ times interval w e hr hstop] at h
      rw [Retry_of_stop cls rfn times interval w e hr hstop]
      exact (Option.some.inj h).symm
    · rw [RetryOnStack_of_again_succ cls rfn room times interval w e hr h0 hl ht] at h
      rw [Retry_of_again cls rfn times interval w e hr h0 hl ht]
      exact ih _ _ h

theorem RetryOnStack_of_room {σ : Type} (cls : Classifier) (rfn : RetryFn σ)
    (interval : Duration) (room : Nat) (times : GoInt) (w : World σ)
    (h : retryBudget times ≤ room) :
    RetryOnStack cls rfn room times interval w = some (Retry cls rfn times interval w) := by
  induction room generalizing times w with
  | zero =>
    have hz : times.dec.val = 0 := (retryBudget_eq_zero times).1 (by omega)
    rcases RetryOnStack_cases cls rfn times w with hr | ⟨e, hr, hstop⟩ | ⟨e, hr, h0, _, _⟩
    · rw [RetryOnStack_of_success cls rfn 0 times interval w hr,
        Retry_of_success cls rfn times interval w hr]
    · rw [RetryOnStack_of_stop cls rfn 0 times interval w e hr hstop,
        Retry_of_stop cls rfn times interval w e hr hstop]
    · exact absurd hz h0
  | succ room ih =>
    rcases RetryOnStack_cases cls rfn times w with hr | ⟨e, hr, hstop⟩ | ⟨e, hr, h0, hl, ht⟩
    · rw [RetryOnStack_of_success cls rfn _ times interval w hr,
        Retry_of_success cls rfn times interval w hr]
    · rw [RetryOnStack_of_stop cls rfn _ times interval w e hr hstop,
        Retry_of_stop cls rfn times interval w e hr hstop]
    · have hb := retryBudget_dec times h0
      rw [RetryOnStack_of_again_succ cls rfn room times interval w e hr h0 hl ht,
        Retry_of_again cls rfn times interval w e hr h0 hl ht]
      exact ih _ _ (by omega)

theorem RetryOnStack_overflow {σ : Type} (cls : Classifier) (rfn : RetryFn σ)
    (interval : Duration) (room : Nat) (times : GoInt) (w : World σ)
    (hfail : ∀ i, ∃ e, outcome rfn w.op i = some e ∧ TransientError cls e)
    (h : room < retryBudget times) :
    RetryOnStack cls rfn room times interval w = none := by
  induction room generalizing times w with
  | zero =>
    obtain ⟨e, he, hl, ht⟩ := hfail 0
    have hr : (rfn w.op).1 = some e := he
    have h0 : times.dec.val ≠ 0 := by
      intro hz
      have := (retryBudget_eq_zero times).2 hz
      omega
    exact RetryOnStack_of_again_zero cls rfn times interval w e hr h0 hl ht
  | succ room ih =>
    obtain ⟨e, he, hl, ht⟩ := hfail 0
    have hr : (rfn w.op).1 = some e := he
    have h0 : times.dec.val ≠ 0 := by
      intro hz
      have := (retryBudget_eq_zero times).2 hz
      omega
    have hb := retryBudget_dec times h0
    rw [RetryOnStack_of_again_succ cls rfn room times interval w e hr h0 hl ht]
    exact ih _ _ (fun i => hfail (i + 1)) (by omega)

/-- C11, at the failing input `Retry(op, 0, interval)` with an operation that
always fails with a retryable remote error: the counter goes from 0 to -1
before the test `times == 0`, so the test fires only after the counter has
wrapped around.  `Retry` then makes `2 ^ 64` invocations, nested `2 ^ 64 - 1`
calls deep, and on any call stack with room for fewer nested calls the run
overflows the stack and does not return. -/
theorem Retry_zero_times_overflows (room : Nat) (interval : Duration)
    (h : room < 2 ^ 64 - 1) :
    RetryOnStack retryAll alwaysFails room (GoInt.ofSmall 0 (by decide)) interval
        (World.start 0) = none
    ∧ (Retry retryAll alwaysFails (GoInt.ofSmall 0 (by decide)) interval
        (World.start 0)).2.calls = 2 ^ 64 := by
  have hb : retryBudget (GoInt.ofSmall 0 (by decide)) = 2 ^ 64 - 1 := by
    simp only [retryBudget, GoInt.ofSmall]
    omega
  refine ⟨?_, Retry_zero_times_calls interval⟩
  apply RetryOnStack_overflow
  · exact fun i => ⟨_, rfl, transientError_remoteError _⟩
  · rw [hb]
    exact h

/-- C11, on a call stack with room for four million nested calls and no wait
between retries: `Retry(op, 0, 0)` does not return. -/
theorem Retry_zero_times_overflows_witness :
    4000000 < 2 ^ 64 - 1
    ∧ RetryOnStack retryAll alwaysFails 4000000 (GoInt.ofSmall 0 (by decide)) 0
        (World.start 0) = none :=
  ⟨by norm_num, (Retry_zero_times_overflows 4000000 0 (by norm_num)).1⟩

end TerraCognita
